import Mathlib

/-!
Verification development for the postscriptum event-dispatch library.

The development shallowly embeds the dispatch engine of
`src/postscriptum/pubsub.py` (class `PubSub`), the hook registration
adapter of `src/postscriptum/register.py`, and the scoped-exit guard
(`catch_system_exit`).

Modelling conventions:
* Handlers are opaque callables identified by natural numbers; a handler's
  observable behaviour when invoked with a context is given by a `Behavior`
  function (return normally, call the bound force-exit function, or raise a
  generic exception).
* Python's `set` of already-called handlers (`PubSub._called_handlers`) is a
  `List Nat` used only through membership; `set.add` is modelled by `cons`.
* Raising and catching exceptions is modelled by the `Outcome` type threaded
  through the dispatch functions: `Outcome.sentinel` is the internal
  `PubSubExit` forced-exit sentinel raised by `PubSub.force_exit`, and
  `Outcome.error` is a generic exception raised by a user handler.
* Dispatch never mutates the handler registries or the configuration flags
  (`self.finish_handlers` etc. are only read by `_call_handlers` and the
  `_handle_*` methods), so the registries are passed as an immutable `Regs`
  record while the mutable called-set is threaded explicitly.
-/

/-- The event categories of the dispatcher (the six registries of
`PubSub.__init__`). -/
inductive Cat where
  | terminate
  | quit
  | crash
  | finish
  | hold
  | always
deriving DecidableEq, Repr

/-- The per-episode event context built by `_handle_terminate`,
`_handle_crash` and `_handle_quit` (a dict in Python); `empty` is the `{}`
context passed by the atexit path of `_handle_finish`. The payloads keep
exactly what the claims inspect: the signal number, the exception identity
and the exit code. -/
inductive Ctx where
  | empty
  | terminate (sig : Nat)
  | crash (exc : Nat)
  | quit (code : Int)
deriving DecidableEq, Repr

/-- What a user-supplied handler does when invoked: return normally, call
the bound force-exit function from the context (raising the `PubSubExit`
sentinel with the context's bound exit code), or raise a generic
exception. -/
inductive HAction where
  | ret
  | callExit
  | raiseErr (e : Nat)
deriving DecidableEq, Repr

/-- How a dispatch call terminates: normal return, propagating the
`PubSubExit` sentinel, or propagating a generic handler exception. -/
inductive Outcome where
  | ok
  | sentinel (code : Int)
  | error (e : Nat)
deriving DecidableEq, Repr

/-- The behaviour table: what handler `h` does when invoked with context
`c`. -/
def Behavior : Type := Nat → Ctx → HAction

/-- The exit code bound into the context's force-exit function:
`_handle_terminate` binds `128 + sig` and `_handle_quit` binds the
`SystemExit` code. Crash and empty contexts carry no exit binding; the
modelled scenarios never call exit there, the value 0 is a placeholder. -/
def exitCodeOf : Ctx → Int
  | Ctx.terminate sig => 128 + (sig : Int)
  | Ctx.quit code => code
  | Ctx.crash _ => 0
  | Ctx.empty => 0

/-- The outcome of running one handler action under a context. -/
def actOut : HAction → Ctx → Outcome
  | HAction.ret, _ => Outcome.ok
  | HAction.callExit, c => Outcome.sentinel (exitCodeOf c)
  | HAction.raiseErr e, _ => Outcome.error e

/-- One recorded handler invocation: the category pass it happened in, the
handler id, and the context it received. -/
structure Invk where
  cat : Cat
  hid : Nat
  ctx : Ctx
deriving DecidableEq, Repr

/-- The configuration and handler registries of a `PubSub` instance (the
fields set in `PubSub.__init__` that dispatch only reads). Each registry is
an insertion-ordered list of handler ids. -/
structure Regs where
  exitAfterTerminate : Bool
  exitAfterQuit : Bool
  finishH : List Nat
  terminateH : List Nat
  crashH : List Nat
  quitH : List Nat
  alwaysH : List Nat
  holdH : List Nat
deriving DecidableEq, Repr

/-- Result of a dispatch call: the called-set afterwards, the trace of
handler invocations in order, and how the call terminated. -/
structure DRes where
  called : List Nat
  tr : List Invk
  out : Outcome
deriving DecidableEq, Repr

/-- The handler ids of a trace. -/
def ids (tr : List Invk) : List Nat := tr.map Invk.hid

/-- How many times handler `x` was invoked in trace `tr`. -/
def countId (x : Nat) (tr : List Invk) : Nat := (ids tr).count x

/-- `PubSub._call_handlers`: iterate the registry in order; each handler not
yet in the called-set is added to it and then invoked; an exception raised
by a handler propagates immediately (handlers after it do not run). -/
def callHandlers (b : Behavior) (cat : Cat) (hs : List Nat) (ctx : Ctx)
    (called : List Nat) : DRes :=
  match hs with
  | [] => ⟨called, [], Outcome.ok⟩
  | h :: rest =>
    if h ∈ called then
      callHandlers b cat rest ctx called
    else
      match actOut (b h ctx) ctx with
      | Outcome.ok =>
        let r := callHandlers b cat rest ctx (h :: called)
        ⟨r.called, Invk.mk cat h ctx :: r.tr, r.out⟩
      | o => ⟨h :: called, [Invk.mk cat h ctx], o⟩

/-- `PubSub._handle_finish`: run the finish handlers then the always
handlers with the given context. -/
def handleFinish (b : Behavior) (R : Regs) (ctx : Ctx) (called : List Nat) :
    DRes :=
  let r1 := callHandlers b Cat.finish R.finishH ctx called
  match r1.out with
  | Outcome.ok =>
    let r2 := callHandlers b Cat.always R.alwaysH ctx r1.called
    ⟨r2.called, r1.tr ++ r2.tr, r2.out⟩
  | _ => r1

/-- `PubSub._handle_hold`: run the hold handlers then the always handlers,
then `self.reset()` clears the called-set (only when no handler raised). -/
def handleHold (b : Behavior) (R : Regs) (ctx : Ctx) (called : List Nat) :
    DRes :=
  let r1 := callHandlers b Cat.hold R.holdH ctx called
  match r1.out with
  | Outcome.ok =>
    let r2 := callHandlers b Cat.always R.alwaysH ctx r1.called
    match r2.out with
    | Outcome.ok => ⟨[], r1.tr ++ r2.tr, Outcome.ok⟩
    | o => ⟨r2.called, r1.tr ++ r2.tr, o⟩
  | _ => r1

/-- `PubSub._handle_crash`: build the crash context, run the crash handlers,
then `_handle_finish` with the same context. No reset of the called-set. -/
def handleCrash (b : Behavior) (R : Regs) (exc : Nat) (called : List Nat) :
    DRes :=
  let ctx := Ctx.crash exc
  let r1 := callHandlers b Cat.crash R.crashH ctx called
  match r1.out with
  | Outcome.ok =>
    let r2 := handleFinish b R ctx r1.called
    ⟨r2.called, r1.tr ++ r2.tr, r2.out⟩
  | _ => r1

/-- `PubSub._handle_terminate`: build the terminate context with a bound
force-exit function (code `128 + sig`), run the terminate handlers catching
only the `PubSubExit` sentinel; on the sentinel run `_handle_finish` then
re-raise; on a normal return either run `_handle_finish` and force-exit with
the recommended code (`exit_after_terminate_handlers` true), or run
`_handle_hold` (false). A generic handler exception propagates directly. -/
def handleTerminate (b : Behavior) (R : Regs) (sig : Nat)
    (called : List Nat) : DRes :=
  let ctx := Ctx.terminate sig
  let r1 := callHandlers b Cat.terminate R.terminateH ctx called
  match r1.out with
  | Outcome.ok =>
    if R.exitAfterTerminate then
      let r2 := handleFinish b R ctx r1.called
      match r2.out with
      | Outcome.ok =>
        ⟨r2.called, r1.tr ++ r2.tr, Outcome.sentinel (128 + (sig : Int))⟩
      | o => ⟨r2.called, r1.tr ++ r2.tr, o⟩
    else
      let r2 := handleHold b R ctx r1.called
      ⟨r2.called, r1.tr ++ r2.tr, r2.out⟩
  | Outcome.sentinel c =>
    let r2 := handleFinish b R ctx r1.called
    match r2.out with
    | Outcome.ok => ⟨r2.called, r1.tr ++ r2.tr, Outcome.sentinel c⟩
    | o => ⟨r2.called, r1.tr ++ r2.tr, o⟩
  | Outcome.error _e => r1

/-- `PubSub._handle_quit`: build the quit context with a bound force-exit
function (the SystemExit code), run the quit handlers catching only the
sentinel; on the sentinel run `_handle_finish` then re-raise; on a normal
return run `_handle_finish` (`exit_after_quit_handlers` true) or
`_handle_hold` (false). -/
def handleQuit (b : Behavior) (R : Regs) (code : Int) (called : List Nat) :
    DRes :=
  let ctx := Ctx.quit code
  let r1 := callHandlers b Cat.quit R.quitH ctx called
  match r1.out with
  | Outcome.ok =>
    if R.exitAfterQuit then
      let r2 := handleFinish b R ctx r1.called
      ⟨r2.called, r1.tr ++ r2.tr, r2.out⟩
    else
      let r2 := handleHold b R ctx r1.called
      ⟨r2.called, r1.tr ++ r2.tr, r2.out⟩
  | Outcome.sentinel c =>
    let r2 := handleFinish b R ctx r1.called
    match r2.out with
    | Outcome.ok => ⟨r2.called, r1.tr ++ r2.tr, Outcome.sentinel c⟩
    | o => ⟨r2.called, r1.tr ++ r2.tr, o⟩
  | Outcome.error _e => r1

/-- One trigger path firing: a termination signal arriving at
`_handle_terminate`, an unhandled exception at `_handle_crash`, a
`SystemExit` caught by the guard at `_handle_quit`, or the atexit hook at
`_handle_finish` (which passes the empty context). -/
inductive Trigger where
  | term (sig : Nat)
  | crashT (exc : Nat)
  | quitT (code : Int)
  | finishT
deriving DecidableEq, Repr

/-- Dispatch of one trigger: the entry point the runtime mechanism calls. -/
def dispatch (b : Behavior) (R : Regs) : Trigger → List Nat → DRes
  | Trigger.term sig, called => handleTerminate b R sig called
  | Trigger.crashT exc, called => handleCrash b R exc called
  | Trigger.quitT code, called => handleQuit b R code called
  | Trigger.finishT, called => handleFinish b R Ctx.empty called

/-!
The registration adapter of `src/postscriptum/register.py`: the process-wide
error hook with its history stack, the per-signal handler table with its
per-signal history stacks, and the atexit callback list. Signal names are
identifiers (coded as naturals: 1 = SIGINT, 2 = SIGQUIT, 3 = SIGTERM,
4 = SIGBREAK); the platform is an association list from names to signal
numbers, mirroring `getattr(signal, name, None)`.
-/

/-- A signal argument as accepted by `signals_from_names`: either a
`signal.Signals` enum member (its number) or a signal name. -/
def SigArg : Type := Sum Nat Nat

/-- `signals_from_names` (register.py lines 26-65): yield enum members
as-is; look names up on the platform, a missing (or falsy) attribute is
silently skipped. -/
def signals_from_names (avail : List (Nat × Nat)) :
    List (Sum Nat Nat) → List Nat
  | [] => []
  | Sum.inl s :: rest => s :: signals_from_names avail rest
  | Sum.inr name :: rest =>
    match avail.lookup name with
    | some v =>
      if v = 0 then signals_from_names avail rest
      else v :: signals_from_names avail rest
    | none => signals_from_names avail rest

/-- `PROCESS_TERMINATING_SIGNAL = ("SIGINT", "SIGQUIT", "SIGTERM",
"SIGBREAK")`, all passed as names. -/
def PTS : List (Sum Nat Nat) := [Sum.inr 1, Sum.inr 2, Sum.inr 3, Sum.inr 4]

/-- The signal-table part of the process state: the installed handler per
signal number (`signal.getsignal` / `signal.signal`) and
`SIGNAL_HANDLERS_HISTORY` (a stack per signal, pushed with `append` and
popped from the end). -/
structure SigState where
  table : Nat → Nat
  hist : Nat → List Nat

/-- One iteration of the loop in `register_signals_handler`: push the
current handler on the signal's history stack and install the wrapper. -/
def sigRegister (wrapId : Nat) (s : Nat) (p : SigState) : SigState :=
  ⟨fun t => if t = s then wrapId else p.table t,
   fun t => if t = s then p.hist s ++ [p.table s] else p.hist t⟩

/-- The loop of `register_signals_handler` over an already-resolved signal
list. -/
def sigRegisterAll (wrapId : Nat) : List Nat → SigState → SigState
  | [], p => p
  | s :: rest, p => sigRegisterAll wrapId rest (sigRegister wrapId s p)

/-- One iteration of the loop in `restore_signals_handlers`: an empty
history stack is an `IndexError` (`none`); otherwise pop the stack and
reinstall the popped handler. -/
def sigRestore (s : Nat) (p : SigState) : Option SigState :=
  match (p.hist s).getLast? with
  | none => none
  | some v =>
    some ⟨fun t => if t = s then v else p.table t,
          fun t => if t = s then (p.hist s).dropLast else p.hist t⟩

/-- The loop of `restore_signals_handlers` over an already-resolved signal
list. -/
def sigRestoreAll : List Nat → SigState → Option SigState
  | [], p => some p
  | s :: rest, p =>
    match sigRestore s p with
    | none => none
    | some q => sigRestoreAll rest q

/-- The process-wide hook state: `sys.excepthook` with
`EXCEPTION_HANDLERS_HISTORY`, the signal table with its history, and the
atexit callback list. Callables are identified by naturals. -/
structure Hooks where
  excepthook : Nat
  exceptHist : List Nat
  sig : SigState
  atexitRegs : List Nat

/-- `register_exception_handler`: append the current `sys.excepthook` to
the history and install the wrapper. -/
def register_exception_handler (wrapId : Nat) (hk : Hooks) : Hooks :=
  { hk with
    exceptHist := hk.exceptHist ++ [hk.excepthook]
    excepthook := wrapId }

/-- `restore_previous_exception_handler`: an empty history is an
`IndexError` (`none`); otherwise pop the history and reinstall the popped
hook. -/
def restore_previous_exception_handler (hk : Hooks) : Option Hooks :=
  match hk.exceptHist.getLast? with
  | none => none
  | some h =>
    some { hk with
           excepthook := h
           exceptHist := hk.exceptHist.dropLast }

/-- `register_signals_handler`: resolve the signal arguments and run the
registration loop; only the signal table and history change. -/
def register_signals_handler (avail : List (Nat × Nat)) (wrapId : Nat)
    (sigs : List (Sum Nat Nat)) (hk : Hooks) : Hooks :=
  { hk with sig := sigRegisterAll wrapId (signals_from_names avail sigs) hk.sig }

/-- `restore_signals_handlers`: resolve the signal arguments and run the
restoration loop; only the signal table and history change. -/
def restore_signals_handlers (avail : List (Nat × Nat))
    (sigs : List (Sum Nat Nat)) (hk : Hooks) : Option Hooks :=
  match sigRestoreAll (signals_from_names avail sigs) hk.sig with
  | none => none
  | some p => some { hk with sig := p }

/-- `atexit.register`: append the callback. -/
def atexitRegister (f : Nat) (hk : Hooks) : Hooks :=
  { hk with atexitRegs := hk.atexitRegs ++ [f] }

/-- `atexit.unregister`: remove every occurrence of the callback. -/
def atexitUnregister (f : Nat) (hk : Hooks) : Hooks :=
  { hk with atexitRegs := hk.atexitRegs.filter (fun g => g ≠ f) }

/-- The lifecycle state of a `PubSub` instance: its registries and flags,
the called-set and the `_started` flag. -/
structure PubSub where
  regs : Regs
  called : List Nat
  started : Bool

/-- `PubSub.start`: a no-op when already started; otherwise `reset()` the
called-set, install the exception handler, the signal handlers for
`PROCESS_TERMINATING_SIGNAL` and the atexit hook, and mark started.
`crashWrapId` and `sigWrapId` are the identities of the two adapter
wrappers closed over `self._handle_crash` / `self._handle_terminate`, and
`finishId` is the identity of the bound `self._handle_finish`. -/
def PubSub.start (avail : List (Nat × Nat))
    (crashWrapId sigWrapId finishId : Nat) (ps : PubSub) (hk : Hooks) :
    PubSub × Hooks :=
  if ps.started then (ps, hk)
  else
    let hk1 := register_exception_handler crashWrapId hk
    let hk2 := register_signals_handler avail sigWrapId PTS hk1
    let hk3 := atexitRegister finishId hk2
    ({ ps with called := [], started := true }, hk3)

/-- `PubSub.stop`: a no-op when not started; otherwise restore the previous
exception handler and signal handlers, unregister the atexit hook and mark
stopped. `none` models the `IndexError` of an underflowing restore. -/
def PubSub.stop (avail : List (Nat × Nat)) (finishId : Nat) (ps : PubSub)
    (hk : Hooks) : Option (PubSub × Hooks) :=
  if ps.started then
    match restore_previous_exception_handler hk with
    | none => none
    | some hk1 =>
      match restore_signals_handlers avail PTS hk1 with
      | none => none
      | some hk2 =>
        some ({ ps with started := false }, atexitUnregister finishId hk2)
  else some (ps, hk)

/-!
The scoped-exit guard (`catch_system_exit`). The version `pubsub.py`
constructs in `PubSub.__call__` — taking `on_system_exit`, `on_enter`,
`on_exit` and `raise_again` — is imported from a module absent from the
source tree (the `system_exit.py` present there is an older revision
without the entry/exit callbacks), so the guard is modelled from the spec.
-/

/-- How the guarded block finishes: normally, with a plain `SystemExit`,
with the internal forced-exit sentinel (a distinguished `SystemExit`), or
with a generic exception. -/
inductive BlockOut where
  | normal
  | sysExit (code : Int)
  | sentinel (code : Int)
  | err (e : Nat)
deriving DecidableEq, Repr

/-- Observable callback events of one pass through the guard. -/
inductive GEv where
  | enter
  | runBody
  | sysExitCb (code : Int)
  | exitCb
deriving DecidableEq, Repr

/-- What propagates out of the guarded scope. -/
inductive GuardOut where
  | finished
  | raised (o : BlockOut)
deriving DecidableEq, Repr

/-- Modelled from the spec: the Scoped-Exit Guard `catch_system_exit` as
used by `PubSub.__call__` (its source module is missing from the tree). On
scope entry it invokes `on_enter`, then the guarded block runs; on scope
exit, a plain `SystemExit` that is not the internal sentinel triggers
`on_system_exit` and is re-raised or swallowed per `raise_again`; the
sentinel is never passed to `on_system_exit` and propagates (or not) per
`raise_again`; any other exception propagates; the `on_exit` cleanup runs
regardless of the outcome. The result is the ordered event list and what
propagates. -/
def runGuard (raiseAgain : Bool) (body : BlockOut) : List GEv × GuardOut :=
  match body with
  | BlockOut.normal =>
    ([GEv.enter, GEv.runBody, GEv.exitCb], GuardOut.finished)
  | BlockOut.sentinel c =>
    ([GEv.enter, GEv.runBody, GEv.exitCb],
     if raiseAgain then GuardOut.raised (BlockOut.sentinel c)
     else GuardOut.finished)
  | BlockOut.sysExit c =>
    ([GEv.enter, GEv.runBody, GEv.sysExitCb c, GEv.exitCb],
     if raiseAgain then GuardOut.raised (BlockOut.sysExit c)
     else GuardOut.finished)
  | BlockOut.err e =>
    ([GEv.enter, GEv.runBody, GEv.exitCb], GuardOut.raised (BlockOut.err e))

/-!
The handler registry structure. `pubsub.py` stores each category's handlers
in an `OrderedSetType` whose definition is likewise missing from the source
tree (`watcher.py`, the previous revision, uses the third-party
`OrderedSet`); it is modelled from the spec contract: insertion-ordered,
duplicate registration is a no-op.
-/

/-- Modelled from the spec: `OrderedSetType.add` — insert the handler at
the end if absent, otherwise leave the registry unchanged. -/
def osAdd (s : List Nat) (h : Nat) : List Nat :=
  if h ∈ s then s else s ++ [h]

/-- The registry produced by a sequence of `add` calls starting from the
empty registry. -/
def osOfList (l : List Nat) : List Nat := l.foldl osAdd []

/-- Reference function for first-insertion order: keep the first occurrence
of each element, in order. -/
def firstDedup : List Nat → List Nat
  | [] => []
  | x :: xs => x :: firstDedup (xs.filter (fun y => decide (y ≠ x)))
termination_by l => l.length
decreasing_by
  simp only [List.length_cons]
  exact Nat.lt_succ_of_le (List.length_filter_le _ _)

/-!
Basic lemmas about `callHandlers`: step equations, trace well-formedness,
the called-set equation, and the behaviour on raising handlers.
-/

/-- Trace well-formedness relative to an initial called-set: no handler is
invoked twice, and every invoked handler was outside the initial
called-set. -/
def TrOK (c0 : List Nat) (tr : List Invk) : Prop :=
  (ids tr).Nodup ∧ ∀ x ∈ ids tr, x ∉ c0

theorem ids_append (t1 t2 : List Invk) : ids (t1 ++ t2) = ids t1 ++ ids t2 :=
  List.map_append _ _ _

theorem trok_append {c0 : List Nat} {t1 t2 : List Invk}
    (h1 : TrOK c0 t1) (h2 : TrOK ((ids t1).reverse ++ c0) t2) :
    TrOK c0 (t1 ++ t2) := by
  obtain ⟨n1, f1⟩ := h1
  obtain ⟨n2, f2⟩ := h2
  constructor
  · rw [ids_append]
    refine List.Nodup.append n1 n2 ?_
    intro x hx1 hx2
    exact f2 x hx2 (by simp [List.mem_append, List.mem_reverse, hx1])
  · intro x hx
    rw [ids_append, List.mem_append] at hx
    rcases hx with hx | hx
    · exact f1 x hx
    · intro hc
      exact f2 x hx (by simp [List.mem_append, hc])

theorem ch_cons_skip {b : Behavior} {cat : Cat} {ctx : Ctx} {h : Nat}
    {rest called : List Nat} (hc : h ∈ called) :
    callHandlers b cat (h :: rest) ctx called =
      callHandlers b cat rest ctx called := by
  simp only [callHandlers, if_pos hc]

theorem ch_cons_run {b : Behavior} {cat : Cat} {ctx : Ctx} {h : Nat}
    {rest called : List Nat} (hc : h ∉ called)
    (ha : actOut (b h ctx) ctx = Outcome.ok) :
    callHandlers b cat (h :: rest) ctx called =
      ⟨(callHandlers b cat rest ctx (h :: called)).called,
       Invk.mk cat h ctx :: (callHandlers b cat rest ctx (h :: called)).tr,
       (callHandlers b cat rest ctx (h :: called)).out⟩ := by
  simp only [callHandlers, if_neg hc, ha]

theorem ch_cons_raise {b : Behavior} {cat : Cat} {ctx : Ctx} {h : Nat}
    {rest called : List Nat} {o : Outcome} (hc : h ∉ called)
    (ha : actOut (b h ctx) ctx = o) (hno : o ≠ Outcome.ok) :
    callHandlers b cat (h :: rest) ctx called =
      ⟨h :: called, [Invk.mk cat h ctx], o⟩ := by
  cases o with
  | ok => exact absurd rfl hno
  | sentinel c => simp only [callHandlers, if_neg hc, ha]
  | error e => simp only [callHandlers, if_neg hc, ha]

/-- The fundamental invariants of one `_call_handlers` pass: every recorded
invocation carries this pass's category and context, names a handler of
this registry that was not yet called; the trace is duplication-free and
fresh; and the called-set afterwards is exactly the invoked handlers pushed
(in reverse) onto the called-set before. -/
theorem ch_spec (b : Behavior) (cat : Cat) (ctx : Ctx) :
    ∀ (hs called : List Nat),
      (∀ inv ∈ (callHandlers b cat hs ctx called).tr,
          inv.cat = cat ∧ inv.ctx = ctx ∧ inv.hid ∈ hs ∧ inv.hid ∉ called) ∧
      TrOK called (callHandlers b cat hs ctx called).tr ∧
      (callHandlers b cat hs ctx called).called =
        (ids (callHandlers b cat hs ctx called).tr).reverse ++ called := by
  intro hs
  induction hs with
  | nil =>
    intro called
    refine ⟨?_, ⟨?_, ?_⟩, ?_⟩ <;> simp [callHandlers, ids, TrOK]
  | cons h rest ih =>
    intro called
    by_cases hc : h ∈ called
    · rw [ch_cons_skip hc]
      obtain ⟨ents, tro, ceq⟩ := ih called
      refine ⟨?_, tro, ceq⟩
      intro inv hm
      obtain ⟨e1, e2, e3, e4⟩ := ents inv hm
      exact ⟨e1, e2, List.mem_cons_of_mem _ e3, e4⟩
    · cases hao : actOut (b h ctx) ctx with
      | ok =>
        rw [ch_cons_run hc hao]
        obtain ⟨ents, ⟨nd, fr⟩, ceq⟩ := ih (h :: called)
        have hfresh : h ∉ ids (callHandlers b cat rest ctx (h :: called)).tr := by
          intro hmem
          exact fr h hmem (List.mem_cons_self h called)
        refine ⟨?_, ⟨?_, ?_⟩, ?_⟩
        · intro inv hm
          rcases List.mem_cons.mp hm with hm | hm
          · subst hm
            exact ⟨rfl, rfl, List.mem_cons_self h rest, hc⟩
          · obtain ⟨e1, e2, e3, e4⟩ := ents inv hm
            refine ⟨e1, e2, List.mem_cons_of_mem _ e3, ?_⟩
            intro hmem
            exact e4 (List.mem_cons_of_mem _ hmem)
        · show (h :: ids (callHandlers b cat rest ctx (h :: called)).tr).Nodup
          exact List.nodup_cons.mpr ⟨hfresh, nd⟩
        · intro x hx
          rcases List.mem_cons.mp hx with hx | hx
          · subst hx; exact hc
          · intro hmem
            exact fr x hx (List.mem_cons_of_mem _ hmem)
        · show (callHandlers b cat rest ctx (h :: called)).called =
            (h :: ids (callHandlers b cat rest ctx (h :: called)).tr).reverse
              ++ called
          rw [ceq, List.reverse_cons, List.append_assoc]
          simp
      | sentinel c =>
        rw [ch_cons_raise hc hao (by simp)]
        refine ⟨?_, ⟨?_, ?_⟩, ?_⟩
        · intro inv hm
          rcases List.mem_cons.mp hm with hm | hm
          · subst hm; exact ⟨rfl, rfl, List.mem_cons_self h rest, hc⟩
          · simp at hm
        · simp [ids]
        · intro x hx
          simp only [ids, List.map_cons, List.map_nil, List.mem_singleton] at hx
          subst hx; exact hc
        · simp [ids]
      | error e =>
        rw [ch_cons_raise hc hao (by simp)]
        refine ⟨?_, ⟨?_, ?_⟩, ?_⟩
        · intro inv hm
          rcases List.mem_cons.mp hm with hm | hm
          · subst hm; exact ⟨rfl, rfl, List.mem_cons_self h rest, hc⟩
          · simp at hm
        · simp [ids]
        · intro x hx
          simp only [ids, List.map_cons, List.map_nil, List.mem_singleton] at hx
          subst hx; exact hc
        · simp [ids]

/-- If every fresh handler of the pass returns normally, the pass returns
normally. -/
theorem ch_ok (b : Behavior) (cat : Cat) (ctx : Ctx) :
    ∀ (hs called : List Nat),
      (∀ x ∈ hs, x ∉ called → actOut (b x ctx) ctx = Outcome.ok) →
      (callHandlers b cat hs ctx called).out = Outcome.ok := by
  intro hs
  induction hs with
  | nil => intro called _; simp [callHandlers]
  | cons h rest ih =>
    intro called hall
    by_cases hc : h ∈ called
    · rw [ch_cons_skip hc]
      exact ih called (fun x hx => hall x (List.mem_cons_of_mem _ hx))
    · rw [ch_cons_run hc (hall h (List.mem_cons_self h rest) hc)]
      exact ih (h :: called)
        (fun x hx hnx =>
          hall x (List.mem_cons_of_mem _ hx)
            (fun hmem => hnx (List.mem_cons_of_mem _ hmem)))

/-- When a pass returns normally, every handler of the registry ends up in
the called-set. -/
theorem ch_covers (b : Behavior) (cat : Cat) (ctx : Ctx) :
    ∀ (hs called : List Nat),
      (callHandlers b cat hs ctx called).out = Outcome.ok →
      ∀ x ∈ hs, x ∈ (callHandlers b cat hs ctx called).called := by
  intro hs
  induction hs with
  | nil => intro called _ x hx; simp at hx
  | cons h rest ih =>
    intro called hok x hx
    by_cases hc : h ∈ called
    · rw [ch_cons_skip hc] at hok ⊢
      rcases List.mem_cons.mp hx with hx | hx
      · subst hx
        have ceq := (ch_spec b cat ctx rest called).2.2
        rw [ceq]
        exact List.mem_append_right _ hc
      · exact ih called hok x hx
    · cases hao : actOut (b h ctx) ctx with
      | ok =>
        rw [ch_cons_run hc hao] at hok ⊢
        have hmono : h ∈ (callHandlers b cat rest ctx (h :: called)).called := by
          have ceq := (ch_spec b cat ctx rest (h :: called)).2.2
          rw [ceq]
          exact List.mem_append_right _ (List.mem_cons_self h called)
        rcases List.mem_cons.mp hx with hx | hx
        · subst hx; exact hmono
        · exact ih (h :: called) hok x hx
      | sentinel c =>
        rw [ch_cons_raise hc hao (by simp)] at hok
        simp at hok
      | error e =>
        rw [ch_cons_raise hc hao (by simp)] at hok
        simp at hok

/-- When a pass returns normally, every fresh handler of the registry is
invoked. -/
theorem ch_invoked (b : Behavior) (cat : Cat) (ctx : Ctx)
    (hs called : List Nat)
    (hok : (callHandlers b cat hs ctx called).out = Outcome.ok)
    {x : Nat} (hx : x ∈ hs) (hfresh : x ∉ called) :
    x ∈ ids (callHandlers b cat hs ctx called).tr := by
  have hcov := ch_covers b cat ctx hs called hok x hx
  have ceq := (ch_spec b cat ctx hs called).2.2
  rw [ceq, List.mem_append, List.mem_reverse] at hcov
  rcases hcov with hcov | hcov
  · exact hcov
  · exact absurd hcov hfresh

/-- A pass with a designated raising handler (all other handlers return
normally) terminates with that handler's exception, and that handler is
invoked. -/
theorem ch_raise (b : Behavior) (cat : Cat) (ctx : Ctx) {h : Nat}
    {o : Outcome} (hone : ∀ x, x ≠ h → actOut (b x ctx) ctx = Outcome.ok)
    (hao : actOut (b h ctx) ctx = o) (hno : o ≠ Outcome.ok) :
    ∀ (hs called : List Nat), h ∈ hs → h ∉ called →
      (callHandlers b cat hs ctx called).out = o ∧
      h ∈ ids (callHandlers b cat hs ctx called).tr := by
  intro hs
  induction hs with
  | nil => intro called hx; simp at hx
  | cons y rest ih =>
    intro called hx hfresh
    by_cases hc : y ∈ called
    · rw [ch_cons_skip hc]
      have hyh : y ≠ h := fun e => hfresh (e ▸ hc)
      rcases List.mem_cons.mp hx with hx | hx
      · exact absurd hx.symm hyh
      · exact ih called hx hfresh
    · by_cases hyh : y = h
      · subst hyh
        rw [ch_cons_raise hc hao hno]
        simp [ids]
      · rw [ch_cons_run hc (hone y hyh)]
        have hx2 : h ∈ rest := by
          rcases List.mem_cons.mp hx with hx | hx
          · exact absurd hx (fun e => hyh e.symm)
          · exact hx
        have hf2 : h ∉ y :: called := by
          intro hm
          rcases List.mem_cons.mp hm with hm | hm
          · exact hyh hm.symm
          · exact hfresh hm
        obtain ⟨ho, hm⟩ := ih (y :: called) hx2 hf2
        exact ⟨ho, List.mem_cons_of_mem _ hm⟩

/-- A pass over `pre ++ h :: post` where the handlers of `pre` return
normally and `h` raises: the pass stops at `h` with its exception; exactly
the handlers of `pre` and then `h` were invoked, in order — nothing of
`post` runs. -/
theorem ch_err_seq (b : Behavior) (cat : Cat) (ctx : Ctx) {h : Nat}
    {o : Outcome} (hao : actOut (b h ctx) ctx = o) (hno : o ≠ Outcome.ok)
    (post : List Nat) :
    ∀ (pre called : List Nat), (pre ++ [h]).Nodup →
      (∀ x ∈ pre, x ∉ called) → h ∉ called →
      (∀ x ∈ pre, actOut (b x ctx) ctx = Outcome.ok) →
      (callHandlers b cat (pre ++ h :: post) ctx called).out = o ∧
      ids (callHandlers b cat (pre ++ h :: post) ctx called).tr =
        pre ++ [h] := by
  intro pre
  induction pre with
  | nil =>
    intro called _ _ hfresh _
    rw [List.nil_append, ch_cons_raise hfresh hao hno]
    simp [ids]
  | cons y pre ih =>
    intro called hnd hpre hfresh hok
    have hyc : y ∉ called := hpre y (List.mem_cons_self y pre)
    have hynd : y ∉ pre ++ [h] := (List.nodup_cons.mp hnd).1
    have hnd2 : (pre ++ [h]).Nodup := (List.nodup_cons.mp hnd).2
    rw [List.cons_append, ch_cons_run hyc (hok y (List.mem_cons_self y pre))]
    have hpre2 : ∀ x ∈ pre, x ∉ y :: called := by
      intro x hx hm
      rcases List.mem_cons.mp hm with hm | hm
      · exact hynd (hm ▸ List.mem_append_left _ hx)
      · exact hpre x (List.mem_cons_of_mem _ hx) hm
    have hfresh2 : h ∉ y :: called := by
      intro hm
      rcases List.mem_cons.mp hm with hm | hm
      · exact hynd (hm ▸ List.mem_append_right _ (List.mem_singleton.mpr rfl))
      · exact hfresh hm
    obtain ⟨ho, hids⟩ := ih (y :: called) hnd2 hpre2 hfresh2
      (fun x hx => hok x (List.mem_cons_of_mem _ hx))
    refine ⟨ho, ?_⟩
    show y :: ids (callHandlers b cat (pre ++ h :: post) ctx (y :: called)).tr =
      (y :: pre) ++ [h]
    rw [hids, List.cons_append]

/-!
Branch equations for the composed dispatch functions, then their trace
invariants.
-/

theorem hf_eq_ok {b : Behavior} {R : Regs} {ctx : Ctx} {called : List Nat}
    (hok : (callHandlers b Cat.finish R.finishH ctx called).out = Outcome.ok) :
    handleFinish b R ctx called =
      ⟨(callHandlers b Cat.always R.alwaysH ctx
          (callHandlers b Cat.finish R.finishH ctx called).called).called,
       (callHandlers b Cat.finish R.finishH ctx called).tr ++
         (callHandlers b Cat.always R.alwaysH ctx
           (callHandlers b Cat.finish R.finishH ctx called).called).tr,
       (callHandlers b Cat.always R.alwaysH ctx
         (callHandlers b Cat.finish R.finishH ctx called).called).out⟩ := by
  simp only [handleFinish, hok]

theorem hf_eq_raise {b : Behavior} {R : Regs} {ctx : Ctx} {called : List Nat}
    {o : Outcome}
    (ho : (callHandlers b Cat.finish R.finishH ctx called).out = o)
    (hno : o ≠ Outcome.ok) :
    handleFinish b R ctx called =
      callHandlers b Cat.finish R.finishH ctx called := by
  cases o with
  | ok => exact absurd rfl hno
  | sentinel c => simp only [handleFinish, ho]
  | error e => simp only [handleFinish, ho]

theorem hh_eq_ok_ok {b : Behavior} {R : Regs} {ctx : Ctx} {called : List Nat}
    (h1 : (callHandlers b Cat.hold R.holdH ctx called).out = Outcome.ok)
    (h2 : (callHandlers b Cat.always R.alwaysH ctx
            (callHandlers b Cat.hold R.holdH ctx called).called).out =
          Outcome.ok) :
    handleHold b R ctx called =
      ⟨[],
       (callHandlers b Cat.hold R.holdH ctx called).tr ++
         (callHandlers b Cat.always R.alwaysH ctx
           (callHandlers b Cat.hold R.holdH ctx called).called).tr,
       Outcome.ok⟩ := by
  simp only [handleHold, h1, h2]

theorem hh_eq_ok_raise {b : Behavior} {R : Regs} {ctx : Ctx}
    {called : List Nat} {o : Outcome}
    (h1 : (callHandlers b Cat.hold R.holdH ctx called).out = Outcome.ok)
    (h2 : (callHandlers b Cat.always R.alwaysH ctx
            (callHandlers b Cat.hold R.holdH ctx called).called).out = o)
    (hno : o ≠ Outcome.ok) :
    handleHold b R ctx called =
      ⟨(callHandlers b Cat.always R.alwaysH ctx
          (callHandlers b Cat.hold R.holdH ctx called).called).called,
       (callHandlers b Cat.hold R.holdH ctx called).tr ++
         (callHandlers b Cat.always R.alwaysH ctx
           (callHandlers b Cat.hold R.holdH ctx called).called).tr,
       o⟩ := by
  cases o with
  | ok => exact absurd rfl hno
  | sentinel c => simp only [handleHold, h1, h2]
  | error e => simp only [handleHold, h1, h2]

theorem hh_eq_raise {b : Behavior} {R : Regs} {ctx : Ctx} {called : List Nat}
    {o : Outcome}
    (h1 : (callHandlers b Cat.hold R.holdH ctx called).out = o)
    (hno : o ≠ Outcome.ok) :
    handleHold b R ctx called = callHandlers b Cat.hold R.holdH ctx called := by
  cases o with
  | ok => exact absurd rfl hno
  | sentinel c => simp only [handleHold, h1]
  | error e => simp only [handleHold, h1]

theorem hc_eq_ok {b : Behavior} {R : Regs} {exc : Nat} {called : List Nat}
    (h1 : (callHandlers b Cat.crash R.crashH (Ctx.crash exc) called).out =
      Outcome.ok) :
    handleCrash b R exc called =
      ⟨(handleFinish b R (Ctx.crash exc)
          (callHandlers b Cat.crash R.crashH (Ctx.crash exc) called).called).called,
       (callHandlers b Cat.crash R.crashH (Ctx.crash exc) called).tr ++
         (handleFinish b R (Ctx.crash exc)
           (callHandlers b Cat.crash R.crashH (Ctx.crash exc) called).called).tr,
       (handleFinish b R (Ctx.crash exc)
         (callHandlers b Cat.crash R.crashH (Ctx.crash exc) called).called).out⟩ := by
  simp only [handleCrash, h1]

theorem hc_eq_raise {b : Behavior} {R : Regs} {exc : Nat} {called : List Nat}
    {o : Outcome}
    (h1 : (callHandlers b Cat.crash R.crashH (Ctx.crash exc) called).out = o)
    (hno : o ≠ Outcome.ok) :
    handleCrash b R exc called =
      callHandlers b Cat.crash R.crashH (Ctx.crash exc) called := by
  cases o with
  | ok => exact absurd rfl hno
  | sentinel c => simp only [handleCrash, h1]
  | error e => simp only [handleCrash, h1]

theorem ht_eq_error {b : Behavior} {R : Regs} {sig : Nat} {called : List Nat}
    {e : Nat}
    (h1 : (callHandlers b Cat.terminate R.terminateH (Ctx.terminate sig)
            called).out = Outcome.error e) :
    handleTerminate b R sig called =
      callHandlers b Cat.terminate R.terminateH (Ctx.terminate sig) called := by
  simp only [handleTerminate, h1]

theorem ht_eq_sent_ok {b : Behavior} {R : Regs} {sig : Nat}
    {called : List Nat} {c : Int}
    (h1 : (callHandlers b Cat.terminate R.terminateH (Ctx.terminate sig)
            called).out = Outcome.sentinel c)
    (h2 : (handleFinish b R (Ctx.terminate sig)
            (callHandlers b Cat.terminate R.terminateH (Ctx.terminate sig)
              called).called).out = Outcome.ok) :
    handleTerminate b R sig called =
      ⟨(handleFinish b R (Ctx.terminate sig)
          (callHandlers b Cat.terminate R.terminateH (Ctx.terminate sig)
            called).called).called,
       (callHandlers b Cat.terminate R.terminateH (Ctx.terminate sig)
         called).tr ++
         (handleFinish b R (Ctx.terminate sig)
           (callHandlers b Cat.terminate R.terminateH (Ctx.terminate sig)
             called).called).tr,
       Outcome.sentinel c⟩ := by
  simp only [handleTerminate, h1, h2]

theorem ht_eq_sent_raise {b : Behavior} {R : Regs} {sig : Nat}
    {called : List Nat} {c : Int} {o : Outcome}
    (h1 : (callHandlers b Cat.terminate R.terminateH (Ctx.terminate sig)
            called).out = Outcome.sentinel c)
    (h2 : (handleFinish b R (Ctx.terminate sig)
            (callHandlers b Cat.terminate R.terminateH (Ctx.terminate sig)
              called).called).out = o)
    (hno : o ≠ Outcome.ok) :
    handleTerminate b R sig called =
      ⟨(handleFinish b R (Ctx.terminate sig)
          (callHandlers b Cat.terminate R.terminateH (Ctx.terminate sig)
            called).called).called,
       (callHandlers b Cat.terminate R.terminateH (Ctx.terminate sig)
         called).tr ++
         (handleFinish b R (Ctx.terminate sig)
           (callHandlers b Cat.terminate R.terminateH (Ctx.terminate sig)
             called).called).tr,
       o⟩ := by
  cases o with
  | ok => exact absurd rfl hno
  | sentinel c2 => simp only [handleTerminate, h1, h2]
  | error e => simp only [handleTerminate, h1, h2]

theorem ht_eq_ok_exit_ok {b : Behavior} {R : Regs} {sig : Nat}
    {called : List Nat}
    (h1 : (callHandlers b Cat.terminate R.terminateH (Ctx.terminate sig)
            called).out = Outcome.ok)
    (hexit : R.exitAfterTerminate = true)
    (h2 : (handleFinish b R (Ctx.terminate sig)
            (callHandlers b Cat.terminate R.terminateH (Ctx.terminate sig)
              called).called).out = Outcome.ok) :
    handleTerminate b R sig called =
      ⟨(handleFinish b R (Ctx.terminate sig)
          (callHandlers b Cat.terminate R.terminateH (Ctx.terminate sig)
            called).called).called,
       (callHandlers b Cat.terminate R.terminateH (Ctx.terminate sig)
         called).tr ++
         (handleFinish b R (Ctx.terminate sig)
           (callHandlers b Cat.terminate R.terminateH (Ctx.terminate sig)
             called).called).tr,
       Outcome.sentinel (128 + (sig : Int))⟩ := by
  simp only [handleTerminate, h1, hexit, h2, if_true]

theorem ht_eq_ok_exit_raise {b : Behavior} {R : Regs} {sig : Nat}
    {called : List Nat} {o : Outcome}
    (h1 : (callHandlers b Cat.terminate R.terminateH (Ctx.terminate sig)
            called).out = Outcome.ok)
    (hexit : R.exitAfterTerminate = true)
    (h2 : (handleFinish b R (Ctx.terminate sig)
            (callHandlers b Cat.terminate R.terminateH (Ctx.terminate sig)
              called).called).out = o)
    (hno : o ≠ Outcome.ok) :
    handleTerminate b R sig called =
      ⟨(handleFinish b R (Ctx.terminate sig)
          (callHandlers b Cat.terminate R.terminateH (Ctx.terminate sig)
            called).called).called,
       (callHandlers b Cat.terminate R.terminateH (Ctx.terminate sig)
         called).tr ++
         (handleFinish b R (Ctx.terminate sig)
           (callHandlers b Cat.terminate R.terminateH (Ctx.terminate sig)
             called).called).tr,
       o⟩ := by
  cases o with
  | ok => exact absurd rfl hno
  | sentinel c => simp only [handleTerminate, h1, hexit, h2, if_true]
  | error e => simp only [handleTerminate, h1, hexit, h2, if_true]

theorem ht_eq_ok_hold {b : Behavior} {R : Regs} {sig : Nat}
    {called : List Nat}
    (h1 : (callHandlers b Cat.terminate R.terminateH (Ctx.terminate sig)
            called).out = Outcome.ok)
    (hexit : R.exitAfterTerminate = false) :
    handleTerminate b R sig called =
      ⟨(handleHold b R (Ctx.terminate sig)
          (callHandlers b Cat.terminate R.terminateH (Ctx.terminate sig)
            called).called).called,
       (callHandlers b Cat.terminate R.terminateH (Ctx.terminate sig)
         called).tr ++
         (handleHold b R (Ctx.terminate sig)
           (callHandlers b Cat.terminate R.terminateH (Ctx.terminate sig)
             called).called).tr,
       (handleHold b R (Ctx.terminate sig)
         (callHandlers b Cat.terminate R.terminateH (Ctx.terminate sig)
           called).called).out⟩ := by
  simp only [handleTerminate, h1, hexit]
  simp

theorem hq_eq_error {b : Behavior} {R : Regs} {code : Int}
    {called : List Nat} {e : Nat}
    (h1 : (callHandlers b Cat.quit R.quitH (Ctx.quit code) called).out =
      Outcome.error e) :
    handleQuit b R code called =
      callHandlers b Cat.quit R.quitH (Ctx.quit code) called := by
  simp only [handleQuit, h1]

theorem hq_eq_sent_ok {b : Behavior} {R : Regs} {code : Int}
    {called : List Nat} {c : Int}
    (h1 : (callHandlers b Cat.quit R.quitH (Ctx.quit code) called).out =
      Outcome.sentinel c)
    (h2 : (handleFinish b R (Ctx.quit code)
            (callHandlers b Cat.quit R.quitH (Ctx.quit code)
              called).called).out = Outcome.ok) :
    handleQuit b R code called =
      ⟨(handleFinish b R (Ctx.quit code)
          (callHandlers b Cat.quit R.quitH (Ctx.quit code) called).called).called,
       (callHandlers b Cat.quit R.quitH (Ctx.quit code) called).tr ++
         (handleFinish b R (Ctx.quit code)
           (callHandlers b Cat.quit R.quitH (Ctx.quit code) called).called).tr,
       Outcome.sentinel c⟩ := by
  simp only [handleQuit, h1, h2]

theorem hq_eq_sent_raise {b : Behavior} {R : Regs} {code : Int}
    {called : List Nat} {c : Int} {o : Outcome}
    (h1 : (callHandlers b Cat.quit R.quitH (Ctx.quit code) called).out =
      Outcome.sentinel c)
    (h2 : (handleFinish b R (Ctx.quit code)
            (callHandlers b Cat.quit R.quitH (Ctx.quit code)
              called).called).out = o)
    (hno : o ≠ Outcome.ok) :
    handleQuit b R code called =
      ⟨(handleFinish b R (Ctx.quit code)
          (callHandlers b Cat.quit R.quitH (Ctx.quit code) called).called).called,
       (callHandlers b Cat.quit R.quitH (Ctx.quit code) called).tr ++
         (handleFinish b R (Ctx.quit code)
           (callHandlers b Cat.quit R.quitH (Ctx.quit code) called).called).tr,
       o⟩ := by
  cases o with
  | ok => exact absurd rfl hno
  | sentinel c2 => simp only [handleQuit, h1, h2]
  | error e => simp only [handleQuit, h1, h2]

theorem hq_eq_ok_exit {b : Behavior} {R : Regs} {code : Int}
    {called : List Nat}
    (h1 : (callHandlers b Cat.quit R.quitH (Ctx.quit code) called).out =
      Outcome.ok)
    (hexit : R.exitAfterQuit = true) :
    handleQuit b R code called =
      ⟨(handleFinish b R (Ctx.quit code)
          (callHandlers b Cat.quit R.quitH (Ctx.quit code) called).called).called,
       (callHandlers b Cat.quit R.quitH (Ctx.quit code) called).tr ++
         (handleFinish b R (Ctx.quit code)
           (callHandlers b Cat.quit R.quitH (Ctx.quit code) called).called).tr,
       (handleFinish b R (Ctx.quit code)
         (callHandlers b Cat.quit R.quitH (Ctx.quit code) called).called).out⟩ := by
  simp only [handleQuit, h1, hexit, if_true]

theorem hq_eq_ok_hold {b : Behavior} {R : Regs} {code : Int}
    {called : List Nat}
    (h1 : (callHandlers b Cat.quit R.quitH (Ctx.quit code) called).out =
      Outcome.ok)
    (hexit : R.exitAfterQuit = false) :
    handleQuit b R code called =
      ⟨(handleHold b R (Ctx.quit code)
          (callHandlers b Cat.quit R.quitH (Ctx.quit code) called).called).called,
       (callHandlers b Cat.quit R.quitH (Ctx.quit code) called).tr ++
         (handleHold b R (Ctx.quit code)
           (callHandlers b Cat.quit R.quitH (Ctx.quit code) called).called).tr,
       (handleHold b R (Ctx.quit code)
         (callHandlers b Cat.quit R.quitH (Ctx.quit code) called).called).out⟩ := by
  simp only [handleQuit, h1, hexit]
  simp

/-- `_handle_finish` preserves trace well-formedness and the called-set
equation. -/
theorem hf_spec (b : Behavior) (R : Regs) (ctx : Ctx) (called : List Nat) :
    TrOK called (handleFinish b R ctx called).tr ∧
    (handleFinish b R ctx called).called =
      (ids (handleFinish b R ctx called).tr).reverse ++ called := by
  cases ho : (callHandlers b Cat.finish R.finishH ctx called).out with
  | ok =>
    rw [hf_eq_ok ho]
    obtain ⟨-, tro1, ceq1⟩ := ch_spec b Cat.finish ctx R.finishH called
    obtain ⟨-, tro2, ceq2⟩ := ch_spec b Cat.always ctx R.alwaysH
      (callHandlers b Cat.finish R.finishH ctx called).called
    constructor
    · show TrOK called
        ((callHandlers b Cat.finish R.finishH ctx called).tr ++
          (callHandlers b Cat.always R.alwaysH ctx
            (callHandlers b Cat.finish R.finishH ctx called).called).tr)
      apply trok_append tro1
      rw [← ceq1]
      exact tro2
    · show (callHandlers b Cat.always R.alwaysH ctx
          (callHandlers b Cat.finish R.finishH ctx called).called).called = _
      rw [ceq2, ceq1, ids_append, List.reverse_append, List.append_assoc]
  | sentinel c =>
    rw [hf_eq_raise ho (by simp)]
    exact ⟨(ch_spec b Cat.finish ctx R.finishH called).2.1,
           (ch_spec b Cat.finish ctx R.finishH called).2.2⟩
  | error e =>
    rw [hf_eq_raise ho (by simp)]
    exact ⟨(ch_spec b Cat.finish ctx R.finishH called).2.1,
           (ch_spec b Cat.finish ctx R.finishH called).2.2⟩

/-- `_handle_hold` preserves trace well-formedness; its called-set either
obeys the push equation or was reset to empty. -/
theorem hh_spec (b : Behavior) (R : Regs) (ctx : Ctx) (called : List Nat) :
    TrOK called (handleHold b R ctx called).tr ∧
    ((handleHold b R ctx called).called =
        (ids (handleHold b R ctx called).tr).reverse ++ called ∨
      (handleHold b R ctx called).called = []) := by
  obtain ⟨-, tro1, ceq1⟩ := ch_spec b Cat.hold ctx R.holdH called
  cases ho : (callHandlers b Cat.hold R.holdH ctx called).out with
  | ok =>
    obtain ⟨-, tro2, ceq2⟩ := ch_spec b Cat.always ctx R.alwaysH
      (callHandlers b Cat.hold R.holdH ctx called).called
    have troseq : TrOK called
        ((callHandlers b Cat.hold R.holdH ctx called).tr ++
          (callHandlers b Cat.always R.alwaysH ctx
            (callHandlers b Cat.hold R.holdH ctx called).called).tr) := by
      apply trok_append tro1
      rw [← ceq1]
      exact tro2
    cases ho2 : (callHandlers b Cat.always R.alwaysH ctx
        (callHandlers b Cat.hold R.holdH ctx called).called).out with
    | ok =>
      rw [hh_eq_ok_ok ho ho2]
      exact ⟨troseq, Or.inr rfl⟩
    | sentinel c =>
      rw [hh_eq_ok_raise ho ho2 (by simp)]
      refine ⟨troseq, Or.inl ?_⟩
      show (callHandlers b Cat.always R.alwaysH ctx
          (callHandlers b Cat.hold R.holdH ctx called).called).called = _
      rw [ceq2, ceq1, ids_append, List.reverse_append, List.append_assoc]
    | error e =>
      rw [hh_eq_ok_raise ho ho2 (by simp)]
      refine ⟨troseq, Or.inl ?_⟩
      show (callHandlers b Cat.always R.alwaysH ctx
          (callHandlers b Cat.hold R.holdH ctx called).called).called = _
      rw [ceq2, ceq1, ids_append, List.reverse_append, List.append_assoc]
  | sentinel c =>
    rw [hh_eq_raise ho (by simp)]
    exact ⟨tro1, Or.inl ceq1⟩
  | error e =>
    rw [hh_eq_raise ho (by simp)]
    exact ⟨tro1, Or.inl ceq1⟩

/-- `_handle_crash` preserves trace well-formedness. -/
theorem hc_trok (b : Behavior) (R : Regs) (exc : Nat) (called : List Nat) :
    TrOK called (handleCrash b R exc called).tr := by
  obtain ⟨-, tro1, ceq1⟩ := ch_spec b Cat.crash (Ctx.crash exc) R.crashH called
  cases ho : (callHandlers b Cat.crash R.crashH (Ctx.crash exc) called).out with
  | ok =>
    rw [hc_eq_ok ho]
    obtain ⟨tro2, -⟩ := hf_spec b R (Ctx.crash exc)
      (callHandlers b Cat.crash R.crashH (Ctx.crash exc) called).called
    show TrOK called
      ((callHandlers b Cat.crash R.crashH (Ctx.crash exc) called).tr ++
        (handleFinish b R (Ctx.crash exc)
          (callHandlers b Cat.crash R.crashH (Ctx.crash exc) called).called).tr)
    apply trok_append tro1
    rw [← ceq1]
    exact tro2
  | sentinel c =>
    rw [hc_eq_raise ho (by simp)]
    exact tro1
  | error e =>
    rw [hc_eq_raise ho (by simp)]
    exact tro1

/-- `_handle_terminate` preserves trace well-formedness. -/
theorem ht_trok (b : Behavior) (R : Regs) (sig : Nat) (called : List Nat) :
    TrOK called (handleTerminate b R sig called).tr := by
  obtain ⟨-, tro1, ceq1⟩ :=
    ch_spec b Cat.terminate (Ctx.terminate sig) R.terminateH called
  have trofin : TrOK called
      ((callHandlers b Cat.terminate R.terminateH (Ctx.terminate sig)
        called).tr ++
        (handleFinish b R (Ctx.terminate sig)
          (callHandlers b Cat.terminate R.terminateH (Ctx.terminate sig)
            called).called).tr) := by
    obtain ⟨tro2, -⟩ := hf_spec b R (Ctx.terminate sig)
      (callHandlers b Cat.terminate R.terminateH (Ctx.terminate sig)
        called).called
    apply trok_append tro1
    rw [← ceq1]
    exact tro2
  cases ho : (callHandlers b Cat.terminate R.terminateH (Ctx.terminate sig)
      called).out with
  | ok =>
    cases hexit : R.exitAfterTerminate with
    | true =>
      cases ho2 : (handleFinish b R (Ctx.terminate sig)
          (callHandlers b Cat.terminate R.terminateH (Ctx.terminate sig)
            called).called).out with
      | ok => rw [ht_eq_ok_exit_ok ho hexit ho2]; exact trofin
      | sentinel c => rw [ht_eq_ok_exit_raise ho hexit ho2 (by simp)]; exact trofin
      | error e => rw [ht_eq_ok_exit_raise ho hexit ho2 (by simp)]; exact trofin
    | false =>
      rw [ht_eq_ok_hold ho hexit]
      obtain ⟨tro2, -⟩ := hh_spec b R (Ctx.terminate sig)
        (callHandlers b Cat.terminate R.terminateH (Ctx.terminate sig)
          called).called
      show TrOK called
        ((callHandlers b Cat.terminate R.terminateH (Ctx.terminate sig)
          called).tr ++
          (handleHold b R (Ctx.terminate sig)
            (callHandlers b Cat.terminate R.terminateH (Ctx.terminate sig)
              called).called).tr)
      apply trok_append tro1
      rw [← ceq1]
      exact tro2
  | sentinel c =>
    cases ho2 : (handleFinish b R (Ctx.terminate sig)
        (callHandlers b Cat.terminate R.terminateH (Ctx.terminate sig)
          called).called).out with
    | ok => rw [ht_eq_sent_ok ho ho2]; exact trofin
    | sentinel c2 => rw [ht_eq_sent_raise ho ho2 (by simp)]; exact trofin
    | error e => rw [ht_eq_sent_raise ho ho2 (by simp)]; exact trofin
  | error e =>
    rw [ht_eq_error ho]
    exact tro1

/-- `_handle_quit` preserves trace well-formedness. -/
theorem hq_trok (b : Behavior) (R : Regs) (code : Int) (called : List Nat) :
    TrOK called (handleQuit b R code called).tr := by
  obtain ⟨-, tro1, ceq1⟩ := ch_spec b Cat.quit (Ctx.quit code) R.quitH called
  have trofin : TrOK called
      ((callHandlers b Cat.quit R.quitH (Ctx.quit code) called).tr ++
        (handleFinish b R (Ctx.quit code)
          (callHandlers b Cat.quit R.quitH (Ctx.quit code) called).called).tr) := by
    obtain ⟨tro2, -⟩ := hf_spec b R (Ctx.quit code)
      (callHandlers b Cat.quit R.quitH (Ctx.quit code) called).called
    apply trok_append tro1
    rw [← ceq1]
    exact tro2
  cases ho : (callHandlers b Cat.quit R.quitH (Ctx.quit code) called).out with
  | ok =>
    cases hexit : R.exitAfterQuit with
    | true => rw [hq_eq_ok_exit ho hexit]; exact trofin
    | false =>
      rw [hq_eq_ok_hold ho hexit]
      obtain ⟨tro2, -⟩ := hh_spec b R (Ctx.quit code)
        (callHandlers b Cat.quit R.quitH (Ctx.quit code) called).called
      show TrOK called
        ((callHandlers b Cat.quit R.quitH (Ctx.quit code) called).tr ++
          (handleHold b R (Ctx.quit code)
            (callHandlers b Cat.quit R.quitH (Ctx.quit code) called).called).tr)
      apply trok_append tro1
      rw [← ceq1]
      exact tro2
  | sentinel c =>
    cases ho2 : (handleFinish b R (Ctx.quit code)
        (callHandlers b Cat.quit R.quitH (Ctx.quit code) called).called).out with
    | ok => rw [hq_eq_sent_ok ho ho2]; exact trofin
    | sentinel c2 => rw [hq_eq_sent_raise ho ho2 (by simp)]; exact trofin
    | error e => rw [hq_eq_sent_raise ho ho2 (by simp)]; exact trofin
  | error e =>
    rw [hq_eq_error ho]
    exact tro1

/-- Every dispatch entry point produces a duplication-free trace. -/
theorem dispatch_trok (b : Behavior) (R : Regs) (t : Trigger)
    (called : List Nat) : TrOK called (dispatch b R t called).tr := by
  cases t with
  | term sig => exact ht_trok b R sig called
  | crashT exc => exact hc_trok b R exc called
  | quitT code => exact hq_trok b R code called
  | finishT => exact (hf_spec b R Ctx.empty called).1

/-- Claim C1: for every handler registered under any combination of the
categories and every episode in which trigger paths fire, the dispatch
logic invokes that handler at most once during that episode — once a
handler is recorded in the per-episode called set, every later category
pass of the same episode skips it. -/
theorem claim_C1_dedup (b : Behavior) (R : Regs) (t : Trigger)
    (called : List Nat) (x : Nat) :
    countId x (dispatch b R t called).tr ≤ 1 := by
  have nd := (dispatch_trok b R t called).1
  rw [countId]
  exact List.nodup_iff_count_le_one.mp nd x

/-- Core of the held-terminate episode (`exit_after_terminate_handlers`
false, no handler raises): the dispatch returns normally (no sentinel), the
called-set is reset, the terminate, hold and always handlers each run
exactly once, every invocation carries the terminate context, and no
finish-category pass runs. -/
theorem lc2_core (b : Behavior) (R : Regs) (sig : Nat)
    (hcfg : R.exitAfterTerminate = false)
    (hret : ∀ x, b x (Ctx.terminate sig) = HAction.ret) :
    (handleTerminate b R sig []).out = Outcome.ok ∧
    (handleTerminate b R sig []).called = [] ∧
    (∀ x ∈ R.terminateH, countId x (handleTerminate b R sig []).tr = 1) ∧
    (∀ x ∈ R.holdH, countId x (handleTerminate b R sig []).tr = 1) ∧
    (∀ x ∈ R.alwaysH, countId x (handleTerminate b R sig []).tr = 1) ∧
    (∀ inv ∈ (handleTerminate b R sig []).tr, inv.ctx = Ctx.terminate sig) ∧
    (∀ inv ∈ (handleTerminate b R sig []).tr, inv.cat ≠ Cat.finish) := by
  have hao : ∀ x, actOut (b x (Ctx.terminate sig)) (Ctx.terminate sig) =
      Outcome.ok := by
    intro x; rw [hret x]; rfl
  have ho1 : (callHandlers b Cat.terminate R.terminateH (Ctx.terminate sig)
      []).out = Outcome.ok :=
    ch_ok b Cat.terminate (Ctx.terminate sig) R.terminateH []
      (fun x _ _ => hao x)
  obtain ⟨ents1, ⟨nd1, -⟩, ceq1⟩ :=
    ch_spec b Cat.terminate (Ctx.terminate sig) R.terminateH []
  have hoh : (callHandlers b Cat.hold R.holdH (Ctx.terminate sig)
      (callHandlers b Cat.terminate R.terminateH (Ctx.terminate sig)
        []).called).out = Outcome.ok :=
    ch_ok b Cat.hold (Ctx.terminate sig) R.holdH _ (fun x _ _ => hao x)
  obtain ⟨ents2, -, ceq2⟩ := ch_spec b Cat.hold (Ctx.terminate sig) R.holdH
    (callHandlers b Cat.terminate R.terminateH (Ctx.terminate sig) []).called
  have hoa : (callHandlers b Cat.always R.alwaysH (Ctx.terminate sig)
      (callHandlers b Cat.hold R.holdH (Ctx.terminate sig)
        (callHandlers b Cat.terminate R.terminateH (Ctx.terminate sig)
          []).called).called).out = Outcome.ok :=
    ch_ok b Cat.always (Ctx.terminate sig) R.alwaysH _ (fun x _ _ => hao x)
  obtain ⟨ents3, -, -⟩ := ch_spec b Cat.always (Ctx.terminate sig) R.alwaysH
    (callHandlers b Cat.hold R.holdH (Ctx.terminate sig)
      (callHandlers b Cat.terminate R.terminateH (Ctx.terminate sig)
        []).called).called
  have Ehold : handleHold b R (Ctx.terminate sig)
      (callHandlers b Cat.terminate R.terminateH (Ctx.terminate sig)
        []).called =
      ⟨[],
       (callHandlers b Cat.hold R.holdH (Ctx.terminate sig)
         (callHandlers b Cat.terminate R.terminateH (Ctx.terminate sig)
           []).called).tr ++
         (callHandlers b Cat.always R.alwaysH (Ctx.terminate sig)
           (callHandlers b Cat.hold R.holdH (Ctx.terminate sig)
             (callHandlers b Cat.terminate R.terminateH (Ctx.terminate sig)
               []).called).called).tr,
       Outcome.ok⟩ := hh_eq_ok_ok hoh hoa
  have E : handleTerminate b R sig [] =
      ⟨[],
       (callHandlers b Cat.terminate R.terminateH (Ctx.terminate sig) []).tr
         ++ ((callHandlers b Cat.hold R.holdH (Ctx.terminate sig)
           (callHandlers b Cat.terminate R.terminateH (Ctx.terminate sig)
             []).called).tr ++
         (callHandlers b Cat.always R.alwaysH (Ctx.terminate sig)
           (callHandlers b Cat.hold R.holdH (Ctx.terminate sig)
             (callHandlers b Cat.terminate R.terminateH (Ctx.terminate sig)
               []).called).called).tr),
       Outcome.ok⟩ := by
    rw [ht_eq_ok_hold ho1 hcfg, Ehold]
  have nd : (ids
      ((callHandlers b Cat.terminate R.terminateH (Ctx.terminate sig) []).tr
        ++ ((callHandlers b Cat.hold R.holdH (Ctx.terminate sig)
          (callHandlers b Cat.terminate R.terminateH (Ctx.terminate sig)
            []).called).tr ++
        (callHandlers b Cat.always R.alwaysH (Ctx.terminate sig)
          (callHandlers b Cat.hold R.holdH (Ctx.terminate sig)
            (callHandlers b Cat.terminate R.terminateH (Ctx.terminate sig)
              []).called).called).tr))).Nodup := by
    have h := (ht_trok b R sig []).1
    rw [E] at h
    exact h
  -- membership of the first-pass called-set is membership of its trace
  have hc1 : ∀ x, x ∈ (callHandlers b Cat.terminate R.terminateH
      (Ctx.terminate sig) []).called ↔
      x ∈ ids (callHandlers b Cat.terminate R.terminateH (Ctx.terminate sig)
        []).tr := by
    intro x
    rw [ceq1]
    simp [List.mem_reverse]
  refine ⟨by rw [E], by rw [E], ?_, ?_, ?_, ?_, ?_⟩
  · -- terminate handlers run exactly once
    intro x hx
    rw [E]
    show countId x _ = 1
    have hmem : x ∈ ids (callHandlers b Cat.terminate R.terminateH
        (Ctx.terminate sig) []).tr :=
      ch_invoked b Cat.terminate (Ctx.terminate sig) R.terminateH [] ho1 hx
        (by simp)
    rw [countId]
    refine List.count_eq_one_of_mem nd ?_
    rw [ids_append, List.mem_append]
    exact Or.inl hmem
  · -- hold handlers run exactly once
    intro x hx
    rw [E]
    show countId x _ = 1
    rw [countId]
    refine List.count_eq_one_of_mem nd ?_
    rw [ids_append, List.mem_append, ids_append, List.mem_append]
    by_cases hin : x ∈ ids (callHandlers b Cat.terminate R.terminateH
        (Ctx.terminate sig) []).tr
    · exact Or.inl hin
    · refine Or.inr (Or.inl ?_)
      exact ch_invoked b Cat.hold (Ctx.terminate sig) R.holdH _ hoh hx
        (fun hmem => hin ((hc1 x).mp hmem))
  · -- always handlers run exactly once
    intro x hx
    rw [E]
    show countId x _ = 1
    rw [countId]
    refine List.count_eq_one_of_mem nd ?_
    rw [ids_append, List.mem_append, ids_append, List.mem_append]
    by_cases hin1 : x ∈ ids (callHandlers b Cat.terminate R.terminateH
        (Ctx.terminate sig) []).tr
    · exact Or.inl hin1
    by_cases hin2 : x ∈ ids (callHandlers b Cat.hold R.holdH
        (Ctx.terminate sig)
        (callHandlers b Cat.terminate R.terminateH (Ctx.terminate sig)
          []).called).tr
    · exact Or.inr (Or.inl hin2)
    refine Or.inr (Or.inr ?_)
    refine ch_invoked b Cat.always (Ctx.terminate sig) R.alwaysH _ hoa hx ?_
    intro hmem
    rw [ceq2, List.mem_append, List.mem_reverse] at hmem
    rcases hmem with hmem | hmem
    · exact hin2 hmem
    · exact hin1 ((hc1 x).mp hmem)
  · -- every invocation carries the terminate context
    intro inv hm
    rw [E] at hm
    replace hm : inv ∈ _ ++ (_ ++ _) := hm
    rw [List.mem_append, List.mem_append] at hm
    rcases hm with hm | hm | hm
    · exact (ents1 inv hm).2.1
    · exact (ents2 inv hm).2.1
    · exact (ents3 inv hm).2.1
  · -- no finish-category pass runs
    intro inv hm
    rw [E] at hm
    replace hm : inv ∈ _ ++ (_ ++ _) := hm
    rw [List.mem_append, List.mem_append] at hm
    rcases hm with hm | hm | hm
    · rw [(ents1 inv hm).1]; simp
    · rw [(ents2 inv hm).1]; simp
    · rw [(ents3 inv hm).1]; simp

/-- Claim C2: with `exit_after_terminate_handlers=False`, when a
termination signal is delivered and no handler calls the bound force-exit
function, the terminate dispatch does not raise the forced-exit sentinel;
the hold and always handlers each run exactly once with the terminate
context, no finish pass runs, the per-episode called set is empty
afterwards, and a second delivery of the signal re-invokes each terminate
handler exactly once. -/
theorem claim_C2_hold_episode (b : Behavior) (R : Regs) (sig : Nat)
    (hcfg : R.exitAfterTerminate = false)
    (hret : ∀ x, b x (Ctx.terminate sig) = HAction.ret) :
    (handleTerminate b R sig []).out = Outcome.ok ∧
    (handleTerminate b R sig []).called = [] ∧
    (∀ x ∈ R.holdH, countId x (handleTerminate b R sig []).tr = 1) ∧
    (∀ x ∈ R.alwaysH, countId x (handleTerminate b R sig []).tr = 1) ∧
    (∀ inv ∈ (handleTerminate b R sig []).tr, inv.ctx = Ctx.terminate sig) ∧
    (∀ inv ∈ (handleTerminate b R sig []).tr, inv.cat ≠ Cat.finish) ∧
    (∀ x ∈ R.terminateH,
      countId x (handleTerminate b R sig
        (handleTerminate b R sig []).called).tr = 1) := by
  obtain ⟨o1, c1, t1, h1, a1, x1, f1⟩ := lc2_core b R sig hcfg hret
  refine ⟨o1, c1, h1, a1, x1, f1, ?_⟩
  intro x hx
  rw [c1]
  exact (lc2_core b R sig hcfg hret).2.2.1 x hx

/-- Concrete dispatcher for the C2 witness: a terminate, a hold, an always
and a finish handler, `exit_after_terminate_handlers` disabled. -/
def RC2 : Regs := ⟨false, true, [4], [1], [], [], [3], [2]⟩

/-- Concrete behaviour for the C2 witness: every handler returns
normally. -/
def bC2 : Behavior := fun _ _ => HAction.ret

theorem claim_C2_hold_episode_witness :
    RC2.exitAfterTerminate = false ∧
    (handleTerminate bC2 RC2 2 []).out = Outcome.ok ∧
    (handleTerminate bC2 RC2 2 []).called = [] ∧
    (∀ x ∈ RC2.holdH, countId x (handleTerminate bC2 RC2 2 []).tr = 1) :=
  ⟨rfl,
   (claim_C2_hold_episode bC2 RC2 2 rfl (fun _ => rfl)).1,
   (claim_C2_hold_episode bC2 RC2 2 rfl (fun _ => rfl)).2.1,
   (claim_C2_hold_episode bC2 RC2 2 rfl (fun _ => rfl)).2.2.1⟩

/-- Core of the forced-exit terminate episode: a designated terminate
handler calls the bound force-exit function (every other handler returns
normally). The dispatcher catches exactly the sentinel, runs the finish and
always handlers with the same terminate context, re-raises the sentinel
unchanged (code `128 + sig`), and no crash-category pass ever runs. -/
theorem lc3_term (b : Behavior) (R : Regs) (sig : Nat) {h : Nat}
    (hT1 : h ∈ R.terminateH)
    (hT2 : b h (Ctx.terminate sig) = HAction.callExit)
    (hT3 : ∀ x, x ≠ h → b x (Ctx.terminate sig) = HAction.ret) :
    (handleTerminate b R sig []).out =
      Outcome.sentinel (128 + (sig : Int)) ∧
    (∀ x ∈ R.finishH, countId x (handleTerminate b R sig []).tr = 1) ∧
    (∀ x ∈ R.alwaysH, countId x (handleTerminate b R sig []).tr = 1) ∧
    countId h (handleTerminate b R sig []).tr = 1 ∧
    (∀ inv ∈ (handleTerminate b R sig []).tr, inv.ctx = Ctx.terminate sig) ∧
    (∀ inv ∈ (handleTerminate b R sig []).tr, inv.cat ≠ Cat.crash) := by
  have hao_ne : ∀ x, x ≠ h →
      actOut (b x (Ctx.terminate sig)) (Ctx.terminate sig) = Outcome.ok := by
    intro x hx; rw [hT3 x hx]; rfl
  have hraise : actOut (b h (Ctx.terminate sig)) (Ctx.terminate sig) =
      Outcome.sentinel (128 + (sig : Int)) := by
    rw [hT2]; rfl
  obtain ⟨ho1, hmem1⟩ := ch_raise b Cat.terminate (Ctx.terminate sig) hao_ne
    hraise (by simp) R.terminateH [] hT1 (by simp)
  obtain ⟨ents1, ⟨nd1, -⟩, ceq1⟩ :=
    ch_spec b Cat.terminate (Ctx.terminate sig) R.terminateH []
  have hc1 : ∀ x, x ∈ (callHandlers b Cat.terminate R.terminateH
      (Ctx.terminate sig) []).called ↔
      x ∈ ids (callHandlers b Cat.terminate R.terminateH (Ctx.terminate sig)
        []).tr := by
    intro x
    rw [ceq1]
    simp [List.mem_reverse]
  have hhc : h ∈ (callHandlers b Cat.terminate R.terminateH
      (Ctx.terminate sig) []).called := (hc1 h).mpr hmem1
  have hfin_ok : (callHandlers b Cat.finish R.finishH (Ctx.terminate sig)
      (callHandlers b Cat.terminate R.terminateH (Ctx.terminate sig)
        []).called).out = Outcome.ok := by
    refine ch_ok b Cat.finish (Ctx.terminate sig) R.finishH _ ?_
    intro x _ hfr
    exact hao_ne x (fun e => hfr (e ▸ hhc))
  obtain ⟨ents2, -, ceq2⟩ := ch_spec b Cat.finish (Ctx.terminate sig)
    R.finishH
    (callHandlers b Cat.terminate R.terminateH (Ctx.terminate sig) []).called
  have hhc2 : h ∈ (callHandlers b Cat.finish R.finishH (Ctx.terminate sig)
      (callHandlers b Cat.terminate R.terminateH (Ctx.terminate sig)
        []).called).called := by
    rw [ceq2]
    exact List.mem_append_right _ hhc
  have halw_ok : (callHandlers b Cat.always R.alwaysH (Ctx.terminate sig)
      (callHandlers b Cat.finish R.finishH (Ctx.terminate sig)
        (callHandlers b Cat.terminate R.terminateH (Ctx.terminate sig)
          []).called).called).out = Outcome.ok := by
    refine ch_ok b Cat.always (Ctx.terminate sig) R.alwaysH _ ?_
    intro x _ hfr
    exact hao_ne x (fun e => hfr (e ▸ hhc2))
  obtain ⟨ents3, -, -⟩ := ch_spec b Cat.always (Ctx.terminate sig) R.alwaysH
    (callHandlers b Cat.finish R.finishH (Ctx.terminate sig)
      (callHandlers b Cat.terminate R.terminateH (Ctx.terminate sig)
        []).called).called
  have hfo : (handleFinish b R (Ctx.terminate sig)
      (callHandlers b Cat.terminate R.terminateH (Ctx.terminate sig)
        []).called).out = Outcome.ok := by
    rw [hf_eq_ok hfin_ok]
    exact halw_ok
  have htr : (handleFinish b R (Ctx.terminate sig)
      (callHandlers b Cat.terminate R.terminateH (Ctx.terminate sig)
        []).called).tr =
      (callHandlers b Cat.finish R.finishH (Ctx.terminate sig)
        (callHandlers b Cat.terminate R.terminateH (Ctx.terminate sig)
          []).called).tr ++
      (callHandlers b Cat.always R.alwaysH (Ctx.terminate sig)
        (callHandlers b Cat.finish R.finishH (Ctx.terminate sig)
          (callHandlers b Cat.terminate R.terminateH (Ctx.terminate sig)
            []).called).called).tr := by
    rw [hf_eq_ok hfin_ok]
  have E : handleTerminate b R sig [] =
      ⟨(handleFinish b R (Ctx.terminate sig)
          (callHandlers b Cat.terminate R.terminateH (Ctx.terminate sig)
            []).called).called,
       (callHandlers b Cat.terminate R.terminateH (Ctx.terminate sig)
         []).tr ++
         ((callHandlers b Cat.finish R.finishH (Ctx.terminate sig)
           (callHandlers b Cat.terminate R.terminateH (Ctx.terminate sig)
             []).called).tr ++
         (callHandlers b Cat.always R.alwaysH (Ctx.terminate sig)
           (callHandlers b Cat.finish R.finishH (Ctx.terminate sig)
             (callHandlers b Cat.terminate R.terminateH (Ctx.terminate sig)
               []).called).called).tr),
       Outcome.sentinel (128 + (sig : Int))⟩ := by
    rw [ht_eq_sent_ok ho1 hfo, htr]
  have nd : (ids
      ((callHandlers b Cat.terminate R.terminateH (Ctx.terminate sig)
        []).tr ++
        ((callHandlers b Cat.finish R.finishH (Ctx.terminate sig)
          (callHandlers b Cat.terminate R.terminateH (Ctx.terminate sig)
            []).called).tr ++
        (callHandlers b Cat.always R.alwaysH (Ctx.terminate sig)
          (callHandlers b Cat.finish R.finishH (Ctx.terminate sig)
            (callHandlers b Cat.terminate R.terminateH (Ctx.terminate sig)
              []).called).called).tr))).Nodup := by
    have hx := (ht_trok b R sig []).1
    rw [E] at hx
    exact hx
  have hc2 : ∀ x, x ∈ (callHandlers b Cat.finish R.finishH
      (Ctx.terminate sig)
      (callHandlers b Cat.terminate R.terminateH (Ctx.terminate sig)
        []).called).called ↔
      (x ∈ ids (callHandlers b Cat.finish R.finishH (Ctx.terminate sig)
        (callHandlers b Cat.terminate R.terminateH (Ctx.terminate sig)
          []).called).tr ∨
       x ∈ ids (callHandlers b Cat.terminate R.terminateH (Ctx.terminate sig)
        []).tr) := by
    intro x
    rw [ceq2, List.mem_append, List.mem_reverse, hc1]
  refine ⟨by rw [E], ?_, ?_, ?_, ?_, ?_⟩
  · -- finish handlers run exactly once
    intro x hx
    rw [E]
    show countId x _ = 1
    rw [countId]
    refine List.count_eq_one_of_mem nd ?_
    rw [ids_append, List.mem_append, ids_append, List.mem_append]
    by_cases hin : x ∈ ids (callHandlers b Cat.terminate R.terminateH
        (Ctx.terminate sig) []).tr
    · exact Or.inl hin
    · refine Or.inr (Or.inl ?_)
      refine ch_invoked b Cat.finish (Ctx.terminate sig) R.finishH _
        hfin_ok hx ?_
      intro hmem
      exact hin ((hc1 x).mp hmem)
  · -- always handlers run exactly once
    intro x hx
    rw [E]
    show countId x _ = 1
    rw [countId]
    refine List.count_eq_one_of_mem nd ?_
    rw [ids_append, List.mem_append, ids_append, List.mem_append]
    by_cases hin1 : x ∈ ids (callHandlers b Cat.terminate R.terminateH
        (Ctx.terminate sig) []).tr
    · exact Or.inl hin1
    by_cases hin2 : x ∈ ids (callHandlers b Cat.finish R.finishH
        (Ctx.terminate sig)
        (callHandlers b Cat.terminate R.terminateH (Ctx.terminate sig)
          []).called).tr
    · exact Or.inr (Or.inl hin2)
    refine Or.inr (Or.inr ?_)
    refine ch_invoked b Cat.always (Ctx.terminate sig) R.alwaysH _
      halw_ok hx ?_
    intro hmem
    rcases (hc2 x).mp hmem with hmem | hmem
    · exact hin2 hmem
    · exact hin1 hmem
  · -- the raising handler itself ran exactly once
    rw [E]
    show countId h _ = 1
    rw [countId]
    refine List.count_eq_one_of_mem nd ?_
    rw [ids_append, List.mem_append]
    exact Or.inl hmem1
  · -- every invocation carries the terminate context
    intro inv hm
    rw [E] at hm
    replace hm : inv ∈ _ ++ (_ ++ _) := hm
    rw [List.mem_append, List.mem_append] at hm
    rcases hm with hm | hm | hm
    · exact (ents1 inv hm).2.1
    · exact (ents2 inv hm).2.1
    · exact (ents3 inv hm).2.1
  · -- the sentinel never enters the crash-handler path
    intro inv hm
    rw [E] at hm
    replace hm : inv ∈ _ ++ (_ ++ _) := hm
    rw [List.mem_append, List.mem_append] at hm
    rcases hm with hm | hm | hm
    · rw [(ents1 inv hm).1]; simp
    · rw [(ents2 inv hm).1]; simp
    · rw [(ents3 inv hm).1]; simp

/-- Core of the forced-exit quit episode: a designated quit handler calls
the bound force-exit function (every other handler returns normally). The
dispatcher catches exactly the sentinel, runs the finish and always
handlers with the same quit context, re-raises the sentinel unchanged (the
quit code), and no crash-category pass ever runs. -/
theorem lc3_quit (b : Behavior) (R : Regs) (code : Int) {h : Nat}
    (hQ1 : h ∈ R.quitH)
    (hQ2 : b h (Ctx.quit code) = HAction.callExit)
    (hQ3 : ∀ x, x ≠ h → b x (Ctx.quit code) = HAction.ret) :
    (handleQuit b R code []).out = Outcome.sentinel code ∧
    (∀ x ∈ R.finishH, countId x (handleQuit b R code []).tr = 1) ∧
    (∀ x ∈ R.alwaysH, countId x (handleQuit b R code []).tr = 1) ∧
    countId h (handleQuit b R code []).tr = 1 ∧
    (∀ inv ∈ (handleQuit b R code []).tr, inv.ctx = Ctx.quit code) ∧
    (∀ inv ∈ (handleQuit b R code []).tr, inv.cat ≠ Cat.crash) := by
  have hao_ne : ∀ x, x ≠ h →
      actOut (b x (Ctx.quit code)) (Ctx.quit code) = Outcome.ok := by
    intro x hx; rw [hQ3 x hx]; rfl
  have hraise : actOut (b h (Ctx.quit code)) (Ctx.quit code) =
      Outcome.sentinel code := by
    rw [hQ2]; rfl
  obtain ⟨ho1, hmem1⟩ := ch_raise b Cat.quit (Ctx.quit code) hao_ne
    hraise (by simp) R.quitH [] hQ1 (by simp)
  obtain ⟨ents1, ⟨nd1, -⟩, ceq1⟩ :=
    ch_spec b Cat.quit (Ctx.quit code) R.quitH []
  have hc1 : ∀ x, x ∈ (callHandlers b Cat.quit R.quitH
      (Ctx.quit code) []).called ↔
      x ∈ ids (callHandlers b Cat.quit R.quitH (Ctx.quit code) []).tr := by
    intro x
    rw [ceq1]
    simp [List.mem_reverse]
  have hhc : h ∈ (callHandlers b Cat.quit R.quitH
      (Ctx.quit code) []).called := (hc1 h).mpr hmem1
  have hfin_ok : (callHandlers b Cat.finish R.finishH (Ctx.quit code)
      (callHandlers b Cat.quit R.quitH (Ctx.quit code) []).called).out =
      Outcome.ok := by
    refine ch_ok b Cat.finish (Ctx.quit code) R.finishH _ ?_
    intro x _ hfr
    exact hao_ne x (fun e => hfr (e ▸ hhc))
  obtain ⟨ents2, -, ceq2⟩ := ch_spec b Cat.finish (Ctx.quit code) R.finishH
    (callHandlers b Cat.quit R.quitH (Ctx.quit code) []).called
  have hhc2 : h ∈ (callHandlers b Cat.finish R.finishH (Ctx.quit code)
      (callHandlers b Cat.quit R.quitH (Ctx.quit code) []).called).called := by
    rw [ceq2]
    exact List.mem_append_right _ hhc
  have halw_ok : (callHandlers b Cat.always R.alwaysH (Ctx.quit code)
      (callHandlers b Cat.finish R.finishH (Ctx.quit code)
        (callHandlers b Cat.quit R.quitH (Ctx.quit code)
          []).called).called).out = Outcome.ok := by
    refine ch_ok b Cat.always (Ctx.quit code) R.alwaysH _ ?_
    intro x _ hfr
    exact hao_ne x (fun e => hfr (e ▸ hhc2))
  obtain ⟨ents3, -, -⟩ := ch_spec b Cat.always (Ctx.quit code) R.alwaysH
    (callHandlers b Cat.finish R.finishH (Ctx.quit code)
      (callHandlers b Cat.quit R.quitH (Ctx.quit code) []).called).called
  have hfo : (handleFinish b R (Ctx.quit code)
      (callHandlers b Cat.quit R.quitH (Ctx.quit code) []).called).out =
      Outcome.ok := by
    rw [hf_eq_ok hfin_ok]
    exact halw_ok
  have htr : (handleFinish b R (Ctx.quit code)
      (callHandlers b Cat.quit R.quitH (Ctx.quit code) []).called).tr =
      (callHandlers b Cat.finish R.finishH (Ctx.quit code)
        (callHandlers b Cat.quit R.quitH (Ctx.quit code) []).called).tr ++
      (callHandlers b Cat.always R.alwaysH (Ctx.quit code)
        (callHandlers b Cat.finish R.finishH (Ctx.quit code)
          (callHandlers b Cat.quit R.quitH (Ctx.quit code)
            []).called).called).tr := by
    rw [hf_eq_ok hfin_ok]
  have E : handleQuit b R code [] =
      ⟨(handleFinish b R (Ctx.quit code)
          (callHandlers b Cat.quit R.quitH (Ctx.quit code) []).called).called,
       (callHandlers b Cat.quit R.quitH (Ctx.quit code) []).tr ++
         ((callHandlers b Cat.finish R.finishH (Ctx.quit code)
           (callHandlers b Cat.quit R.quitH (Ctx.quit code) []).called).tr ++
         (callHandlers b Cat.always R.alwaysH (Ctx.quit code)
           (callHandlers b Cat.finish R.finishH (Ctx.quit code)
             (callHandlers b Cat.quit R.quitH (Ctx.quit code)
               []).called).called).tr),
       Outcome.sentinel code⟩ := by
    rw [hq_eq_sent_ok ho1 hfo, htr]
  have nd : (ids
      ((callHandlers b Cat.quit R.quitH (Ctx.quit code) []).tr ++
        ((callHandlers b Cat.finish R.finishH (Ctx.quit code)
          (callHandlers b Cat.quit R.quitH (Ctx.quit code) []).called).tr ++
        (callHandlers b Cat.always R.alwaysH (Ctx.quit code)
          (callHandlers b Cat.finish R.finishH (Ctx.quit code)
            (callHandlers b Cat.quit R.quitH (Ctx.quit code)
              []).called).called).tr))).Nodup := by
    have hx := (hq_trok b R code []).1
    rw [E] at hx
    exact hx
  have hc2 : ∀ x, x ∈ (callHandlers b Cat.finish R.finishH (Ctx.quit code)
      (callHandlers b Cat.quit R.quitH (Ctx.quit code) []).called).called ↔
      (x ∈ ids (callHandlers b Cat.finish R.finishH (Ctx.quit code)
        (callHandlers b Cat.quit R.quitH (Ctx.quit code) []).called).tr ∨
       x ∈ ids (callHandlers b Cat.quit R.quitH (Ctx.quit code) []).tr) := by
    intro x
    rw [ceq2, List.mem_append, List.mem_reverse, hc1]
  refine ⟨by rw [E], ?_, ?_, ?_, ?_, ?_⟩
  · intro x hx
    rw [E]
    show countId x _ = 1
    rw [countId]
    refine List.count_eq_one_of_mem nd ?_
    rw [ids_append, List.mem_append, ids_append, List.mem_append]
    by_cases hin : x ∈ ids (callHandlers b Cat.quit R.quitH (Ctx.quit code)
        []).tr
    · exact Or.inl hin
    · refine Or.inr (Or.inl ?_)
      refine ch_invoked b Cat.finish (Ctx.quit code) R.finishH _
        hfin_ok hx ?_
      intro hmem
      exact hin ((hc1 x).mp hmem)
  · intro x hx
    rw [E]
    show countId x _ = 1
    rw [countId]
    refine List.count_eq_one_of_mem nd ?_
    rw [ids_append, List.mem_append, ids_append, List.mem_append]
    by_cases hin1 : x ∈ ids (callHandlers b Cat.quit R.quitH (Ctx.quit code)
        []).tr
    · exact Or.inl hin1
    by_cases hin2 : x ∈ ids (callHandlers b Cat.finish R.finishH
        (Ctx.quit code)
        (callHandlers b Cat.quit R.quitH (Ctx.quit code) []).called).tr
    · exact Or.inr (Or.inl hin2)
    refine Or.inr (Or.inr ?_)
    refine ch_invoked b Cat.always (Ctx.quit code) R.alwaysH _
      halw_ok hx ?_
    intro hmem
    rcases (hc2 x).mp hmem with hmem | hmem
    · exact hin2 hmem
    · exact hin1 hmem
  · rw [E]
    show countId h _ = 1
    rw [countId]
    refine List.count_eq_one_of_mem nd ?_
    rw [ids_append, List.mem_append]
    exact Or.inl hmem1
  · intro inv hm
    rw [E] at hm
    replace hm : inv ∈ _ ++ (_ ++ _) := hm
    rw [List.mem_append, List.mem_append] at hm
    rcases hm with hm | hm | hm
    · exact (ents1 inv hm).2.1
    · exact (ents2 inv hm).2.1
    · exact (ents3 inv hm).2.1
  · intro inv hm
    rw [E] at hm
    replace hm : inv ∈ _ ++ (_ ++ _) := hm
    rw [List.mem_append, List.mem_append] at hm
    rcases hm with hm | hm | hm
    · rw [(ents1 inv hm).1]; simp
    · rw [(ents2 inv hm).1]; simp
    · rw [(ents3 inv hm).1]; simp

/-- Claim C3: for every terminate or quit episode in which a handler raises
the forced-exit sentinel by calling the bound force-exit function, the
dispatcher catches exactly that sentinel, runs the finish and always
handlers with the same episode context, then re-raises the sentinel
unchanged; the sentinel never enters the crash-handler path. -/
theorem claim_C3_sentinel (b : Behavior) (R : Regs) (sig : Nat) (code : Int)
    {h hq : Nat}
    (hT1 : h ∈ R.terminateH)
    (hT2 : b h (Ctx.terminate sig) = HAction.callExit)
    (hT3 : ∀ x, x ≠ h → b x (Ctx.terminate sig) = HAction.ret)
    (hQ1 : hq ∈ R.quitH)
    (hQ2 : b hq (Ctx.quit code) = HAction.callExit)
    (hQ3 : ∀ x, x ≠ hq → b x (Ctx.quit code) = HAction.ret) :
    ((handleTerminate b R sig []).out =
        Outcome.sentinel (128 + (sig : Int)) ∧
      (∀ x ∈ R.finishH, countId x (handleTerminate b R sig []).tr = 1) ∧
      (∀ x ∈ R.alwaysH, countId x (handleTerminate b R sig []).tr = 1) ∧
      countId h (handleTerminate b R sig []).tr = 1 ∧
      (∀ inv ∈ (handleTerminate b R sig []).tr,
        inv.ctx = Ctx.terminate sig) ∧
      (∀ inv ∈ (handleTerminate b R sig []).tr, inv.cat ≠ Cat.crash)) ∧
    ((handleQuit b R code []).out = Outcome.sentinel code ∧
      (∀ x ∈ R.finishH, countId x (handleQuit b R code []).tr = 1) ∧
      (∀ x ∈ R.alwaysH, countId x (handleQuit b R code []).tr = 1) ∧
      countId hq (handleQuit b R code []).tr = 1 ∧
      (∀ inv ∈ (handleQuit b R code []).tr, inv.ctx = Ctx.quit code) ∧
      (∀ inv ∈ (handleQuit b R code []).tr, inv.cat ≠ Cat.crash)) :=
  ⟨lc3_term b R sig hT1 hT2 hT3, lc3_quit b R code hQ1 hQ2 hQ3⟩

/-- Concrete dispatcher for the C3 witness: handler 0 is registered for
terminate and quit, handler 7 for finish, handler 8 for always. -/
def RC3 : Regs := ⟨true, true, [7], [5, 0], [], [0], [8], []⟩

/-- Concrete behaviour for the C3 witness: handler 0 calls the bound
force-exit function, every other handler returns normally. -/
def bC3 : Behavior := fun x _ => if x = 0 then HAction.callExit else HAction.ret

theorem claim_C3_sentinel_witness :
    (0 : Nat) ∈ RC3.terminateH ∧ (0 : Nat) ∈ RC3.quitH ∧
    (handleTerminate bC3 RC3 2 []).out =
      Outcome.sentinel (128 + ((2 : Nat) : Int)) ∧
    (handleQuit bC3 RC3 7 []).out = Outcome.sentinel 7 ∧
    countId 0 (handleTerminate bC3 RC3 2 []).tr = 1 :=
  ⟨by decide, by decide,
   (@claim_C3_sentinel bC3 RC3 2 7 0 0 (by decide) rfl
     (fun x hx => by simp [bC3, hx]) (by decide) rfl
     (fun x hx => by simp [bC3, hx])).1.1,
   (@claim_C3_sentinel bC3 RC3 2 7 0 0 (by decide) rfl
     (fun x hx => by simp [bC3, hx]) (by decide) rfl
     (fun x hx => by simp [bC3, hx])).2.1,
   (@claim_C3_sentinel bC3 RC3 2 7 0 0 (by decide) rfl
     (fun x hx => by simp [bC3, hx]) (by decide) rfl
     (fun x hx => by simp [bC3, hx])).1.2.2.2.1⟩

/-- Claim C6: a handler that raises a generic (non-sentinel) exception
makes that exception propagate unmodified out of the dispatch (only the
sentinel is ever caught); handlers scheduled after the raising one in that
pass do not run, and in a terminate episode no finish handler runs — the
trace stops at the raising handler. -/
theorem claim_C6_error_propagates (b : Behavior) (R : Regs) (sig e h : Nat)
    (pre post : List Nat)
    (hnd : (pre ++ h :: post).Nodup)
    (hpre : ∀ x ∈ pre, b x (Ctx.terminate sig) = HAction.ret)
    (hb : b h (Ctx.terminate sig) = HAction.raiseErr e) :
    (∀ cat,
      (callHandlers b cat (pre ++ h :: post) (Ctx.terminate sig) []).out =
        Outcome.error e ∧
      ids (callHandlers b cat (pre ++ h :: post) (Ctx.terminate sig)
        []).tr = pre ++ [h]) ∧
    (R.terminateH = pre ++ h :: post →
      (handleTerminate b R sig []).out = Outcome.error e ∧
      ids (handleTerminate b R sig []).tr = pre ++ [h] ∧
      ∀ inv ∈ (handleTerminate b R sig []).tr,
        inv.cat = Cat.terminate) := by
  have hao : actOut (b h (Ctx.terminate sig)) (Ctx.terminate sig) =
      Outcome.error e := by
    rw [hb]; rfl
  have hsub : (pre ++ [h]).Sublist (pre ++ h :: post) :=
    List.Sublist.append_left
      (List.cons_sublist_cons.mpr (List.nil_sublist post)) pre
  have hnd2 : (pre ++ [h]).Nodup := List.Nodup.sublist hsub hnd
  have hpre2 : ∀ x ∈ pre,
      actOut (b x (Ctx.terminate sig)) (Ctx.terminate sig) = Outcome.ok := by
    intro x hx; rw [hpre x hx]; rfl
  have part1 : ∀ cat,
      (callHandlers b cat (pre ++ h :: post) (Ctx.terminate sig) []).out =
        Outcome.error e ∧
      ids (callHandlers b cat (pre ++ h :: post) (Ctx.terminate sig)
        []).tr = pre ++ [h] := by
    intro cat
    exact ch_err_seq b cat (Ctx.terminate sig) hao (by simp) post pre []
      hnd2 (by simp) (by simp) hpre2
  refine ⟨part1, ?_⟩
  intro hreg
  have o1 : (callHandlers b Cat.terminate R.terminateH (Ctx.terminate sig)
      []).out = Outcome.error e := by
    rw [hreg]
    exact (part1 Cat.terminate).1
  have E := ht_eq_error o1
  obtain ⟨ents1, -, -⟩ :=
    ch_spec b Cat.terminate (Ctx.terminate sig) R.terminateH []
  refine ⟨by rw [E, o1], ?_, ?_⟩
  · rw [E, hreg]
    exact (part1 Cat.terminate).2
  · intro inv hm
    rw [E] at hm
    exact (ents1 inv hm).1

/-- Concrete dispatcher for the C6 witness: terminate handlers 1, 2, 3 in
order, finish handler 4. -/
def RC6 : Regs := ⟨true, true, [4], [1, 2, 3], [], [], [], []⟩

/-- Concrete behaviour for the C6 witness: handler 2 raises the generic
exception 9, everything else returns normally. -/
def bC6 : Behavior := fun x _ => if x = 2 then HAction.raiseErr 9 else HAction.ret

theorem claim_C6_error_propagates_witness :
    ([1] ++ 2 :: [3]).Nodup ∧
    (handleTerminate bC6 RC6 1 []).out = Outcome.error 9 ∧
    ids (handleTerminate bC6 RC6 1 []).tr = [1] ++ [2] :=
  ⟨by decide,
   ((claim_C6_error_propagates bC6 RC6 1 9 2 [1] [3] (by decide)
     (by decide) rfl).2 rfl).1,
   ((claim_C6_error_propagates bC6 RC6 1 9 2 [1] [3] (by decide)
     (by decide) rfl).2 rfl).2.1⟩

/-- Concrete dispatcher for the C5 counterexample: handler 0 registered for
both crash and terminate, `exit_after_terminate_handlers` disabled. -/
def RC5 : Regs := ⟨false, true, [], [0], [0], [], [], []⟩

/-- Concrete behaviour for C5: every handler returns normally. -/
def bC5 : Behavior := fun _ _ => HAction.ret

/-- Concrete hook state for the C5 witness. -/
def hkC5 : Hooks := ⟨0, [], ⟨fun _ => 0, fun _ => []⟩, []⟩

/-- Concrete unstarted dispatcher for the C5 witness. -/
def psC5 : PubSub := ⟨RC5, [], false⟩

/-- Claim C5 is false on the code: after a crash episode the called set is
NOT cleared at the start of the next episode — here the crash episode
leaves handler 0 in the called set, and a subsequent terminate episode
skips handler 0, diverging from the dispatch that would happen from a
cleared called set. (`_handle_crash`, `_handle_terminate` and
`_handle_quit` never call `reset()` on entry.) -/
theorem claim_C5_counterexample :
    (handleCrash bC5 RC5 7 []).called ≠ [] ∧
    countId 0 (handleTerminate bC5 RC5 2
      (handleCrash bC5 RC5 7 []).called).tr = 0 ∧
    ids (handleTerminate bC5 RC5 2 (handleCrash bC5 RC5 7 []).called).tr ≠
      ids (handleTerminate bC5 RC5 2 []).tr := by
  decide

/-- Claim C5 (amended): the called set is cleared by `start()` (which calls
`reset()`) and at the end of a held episode (`_handle_hold` calls
`reset()` after its hold and always passes complete); it is not cleared at
the start of crash, terminate or quit dispatch. -/
theorem claim_C5_amended (avail : List (Nat × Nat)) (wc ws f : Nat)
    (ps : PubSub) (hk : Hooks) (b : Behavior) (R : Regs) (ctx : Ctx)
    (called : List Nat)
    (hns : ps.started = false)
    (hold_ok : (handleHold b R ctx called).out = Outcome.ok) :
    ((PubSub.start avail wc ws f ps hk).1).called = [] ∧
    (handleHold b R ctx called).called = [] := by
  constructor
  · simp [PubSub.start, hns]
  · cases h1 : (callHandlers b Cat.hold R.holdH ctx called).out with
    | ok =>
      cases h2 : (callHandlers b Cat.always R.alwaysH ctx
          (callHandlers b Cat.hold R.holdH ctx called).called).out with
      | ok => rw [hh_eq_ok_ok h1 h2]
      | sentinel c =>
        rw [hh_eq_ok_raise h1 h2 (by simp)] at hold_ok
        simp at hold_ok
      | error e =>
        rw [hh_eq_ok_raise h1 h2 (by simp)] at hold_ok
        simp at hold_ok
    | sentinel c =>
      rw [hh_eq_raise h1 (by simp)] at hold_ok
      rw [h1] at hold_ok
      simp at hold_ok
    | error e =>
      rw [hh_eq_raise h1 (by simp)] at hold_ok
      rw [h1] at hold_ok
      simp at hold_ok

theorem claim_C5_amended_witness :
    psC5.started = false ∧
    (handleHold bC5 RC5 Ctx.empty [5]).out = Outcome.ok ∧
    ((PubSub.start [(1, 2)] 10 11 12 psC5 hkC5).1).called = [] ∧
    (handleHold bC5 RC5 Ctx.empty [5]).called = [] :=
  ⟨rfl, by decide,
   (claim_C5_amended [(1, 2)] 10 11 12 psC5 hkC5 bC5 RC5 Ctx.empty [5]
     rfl (by decide)).1,
   (claim_C5_amended [(1, 2)] 10 11 12 psC5 hkC5 bC5 RC5 Ctx.empty [5]
     rfl (by decide)).2⟩

/-- Empty registries for the C8 state. -/
def RC8 : Regs := ⟨true, true, [], [], [], [], [], []⟩

/-- An unstarted dispatcher. -/
def psC8u : PubSub := ⟨RC8, [], false⟩

/-- A started dispatcher. -/
def psC8s : PubSub := ⟨RC8, [], true⟩

/-- A concrete hook state. -/
def hkC8 : Hooks := ⟨3, [4], ⟨fun _ => 1, fun _ => [9]⟩, [2]⟩

/-- Claim C8 is false on the code: `stop()` before any `start()` and a
second `start()` while started are silently accepted no-ops — both return
normally with the dispatcher and the process hooks unchanged, instead of
raising (`PubSub.start` returns early when `self.started`, `PubSub.stop`
returns early when not started). -/
theorem claim_C8_counterexample :
    PubSub.stop [(1, 2)] 7 psC8u hkC8 = some (psC8u, hkC8) ∧
    PubSub.start [(1, 2)] 5 6 7 psC8s hkC8 = (psC8s, hkC8) :=
  ⟨rfl, rfl⟩

/-- Claim C8 (amended): calling `stop()` before `start()`, or `start()`
while already started, is silently accepted as a no-op: the call returns
immediately, leaving the dispatcher state and the process-wide hooks
unchanged, and no exception is raised. -/
theorem claim_C8_amended (avail : List (Nat × Nat)) (wc ws f : Nat)
    (ps : PubSub) (hk : Hooks) :
    (ps.started = false → PubSub.stop avail f ps hk = some (ps, hk)) ∧
    (ps.started = true → PubSub.start avail wc ws f ps hk = (ps, hk)) := by
  constructor
  · intro h
    simp [PubSub.stop, h]
  · intro h
    simp [PubSub.start, h]

theorem claim_C8_amended_witness :
    psC8u.started = false ∧ psC8s.started = true ∧
    PubSub.stop [(1, 2)] 7 psC8u hkC8 = some (psC8u, hkC8) ∧
    PubSub.start [(1, 2)] 5 6 7 psC8s hkC8 = (psC8s, hkC8) :=
  ⟨rfl, rfl,
   (claim_C8_amended [(1, 2)] 5 6 7 psC8u hkC8).1 rfl,
   (claim_C8_amended [(1, 2)] 5 6 7 psC8s hkC8).2 rfl⟩

/-!
Round-trip lemmas for the registration adapter: registering and then
restoring a list of distinct signals is the identity on the signal state.
-/

theorem sigRestore_sigRegister (w s : Nat) (p : SigState) :
    sigRestore s (sigRegister w s p) = some p := by
  have hh : (sigRegister w s p).hist s = p.hist s ++ [p.table s] := by
    simp [sigRegister]
  unfold sigRestore
  rw [hh, List.getLast?_concat, List.dropLast_concat]
  show some _ = some _
  congr 1
  cases p with
  | mk tab hist =>
    congr 1
    · funext t
      by_cases ht : t = s
      · subst ht; simp
      · simp [sigRegister, ht]
    · funext t
      by_cases ht : t = s
      · subst ht; simp
      · simp [sigRegister, ht]

theorem sigRegisterAll_ne (w : Nat) :
    ∀ (l : List Nat) (p : SigState) (s : Nat), s ∉ l →
      (sigRegisterAll w l p).table s = p.table s ∧
      (sigRegisterAll w l p).hist s = p.hist s := by
  intro l
  induction l with
  | nil => intro p s _; exact ⟨rfl, rfl⟩
  | cons a l ih =>
    intro p s hs
    have hsa : s ≠ a := fun e => hs (e ▸ List.mem_cons_self a l)
    obtain ⟨h1, h2⟩ :=
      ih (sigRegister w a p) s (fun hm => hs (List.mem_cons_of_mem _ hm))
    refine ⟨?_, ?_⟩
    · show (sigRegisterAll w l (sigRegister w a p)).table s = p.table s
      rw [h1]
      simp [sigRegister, hsa]
    · show (sigRegisterAll w l (sigRegister w a p)).hist s = p.hist s
      rw [h2]
      simp [sigRegister, hsa]

theorem sigRestore_comm_one (w a s : Nat) (hne : a ≠ s) (p : SigState) :
    sigRestore s (sigRegister w a p) =
      (sigRestore s p).map (sigRegister w a) := by
  have hsa : s ≠ a := fun e => hne e.symm
  have hh : (sigRegister w a p).hist s = p.hist s := by
    simp [sigRegister, hsa]
  unfold sigRestore
  rw [hh]
  cases hgl : (p.hist s).getLast? with
  | none => rfl
  | some v =>
    show some _ = some _
    congr 1
    congr 1
    · funext t
      by_cases ht : t = s
      · subst ht
        simp [sigRegister, hsa]
      · by_cases ha : t = a
        · subst ha
          simp [sigRegister, hsa, hne.symm, ht]
        · simp [sigRegister, ht, ha]
    · funext t
      by_cases ht : t = s
      · subst ht
        simp [sigRegister, hsa, hh]
      · by_cases ha : t = a
        · subst ha
          simp [sigRegister, hsa, hne.symm, ht]
        · simp [sigRegister, ht, ha]

theorem sigRestore_comm_all (w : Nat) :
    ∀ (l : List Nat) (s : Nat), s ∉ l → ∀ (p : SigState),
      sigRestore s (sigRegisterAll w l p) =
        (sigRestore s p).map (sigRegisterAll w l) := by
  intro l
  induction l with
  | nil =>
    intro s _ p
    show sigRestore s p = (sigRestore s p).map (sigRegisterAll w [])
    cases sigRestore s p with
    | none => rfl
    | some q => rfl
  | cons a l ih =>
    intro s hs p
    have hsa : a ≠ s := fun e => hs (e ▸ List.mem_cons_self a l)
    show sigRestore s (sigRegisterAll w l (sigRegister w a p)) =
      (sigRestore s p).map (sigRegisterAll w (a :: l))
    rw [ih s (fun hm => hs (List.mem_cons_of_mem _ hm)) (sigRegister w a p),
      sigRestore_comm_one w a s hsa]
    cases sigRestore s p with
    | none => rfl
    | some q => rfl

theorem sigRoundTrip (w : Nat) :
    ∀ (l : List Nat), l.Nodup → ∀ (p : SigState),
      sigRestoreAll l (sigRegisterAll w l p) = some p := by
  intro l
  induction l with
  | nil => intro _ p; rfl
  | cons s l ih =>
    intro hnd p
    have hs : s ∉ l := (List.nodup_cons.mp hnd).1
    have hcm := sigRestore_comm_all w l s hs (sigRegister w s p)
    rw [sigRestore_sigRegister] at hcm
    show sigRestoreAll (s :: l) (sigRegisterAll w l (sigRegister w s p)) =
      some p
    rw [sigRestoreAll, hcm]
    show sigRestoreAll l (sigRegisterAll w l p) = some p
    exact ih (List.nodup_cons.mp hnd).2 p

/-- Claim C4: for every hook state before `start()`, calling `start()` and
then `stop()` (no nested registrations in between) restores the error hook,
every platform-available terminating signal's handler, and the exit-hook
registration to exactly their pre-`start()` values by popping each
resource's history stack — the whole hook state is restored identically.
The dispatcher's own finish hook is assumed not to be registered with
atexit beforehand, and the platform resolves the terminating-signal names
to distinct signal numbers. -/
theorem claim_C4_start_stop (avail : List (Nat × Nat)) (wc ws f : Nat)
    (ps : PubSub) (hk : Hooks)
    (h1 : ps.started = false)
    (h2 : f ∉ hk.atexitRegs)
    (h3 : (signals_from_names avail PTS).Nodup) :
    ∃ ps2, PubSub.stop avail f (PubSub.start avail wc ws f ps hk).1
        (PubSub.start avail wc ws f ps hk).2 = some (ps2, hk) ∧
      ps2.started = false ∧ ps2.regs = ps.regs := by
  obtain ⟨regs0, called0, started0⟩ := ps
  replace h1 : started0 = false := h1
  subst h1
  have Estart : PubSub.start avail wc ws f ⟨regs0, called0, false⟩ hk =
      (⟨regs0, [], true⟩,
       ⟨wc, hk.exceptHist ++ [hk.excepthook],
        sigRegisterAll ws (signals_from_names avail PTS) hk.sig,
        hk.atexitRegs ++ [f]⟩) := rfl
  rw [Estart]
  have Eexc : restore_previous_exception_handler
      ⟨wc, hk.exceptHist ++ [hk.excepthook],
       sigRegisterAll ws (signals_from_names avail PTS) hk.sig,
       hk.atexitRegs ++ [f]⟩ =
      some ⟨hk.excepthook, hk.exceptHist,
        sigRegisterAll ws (signals_from_names avail PTS) hk.sig,
        hk.atexitRegs ++ [f]⟩ := by
    unfold restore_previous_exception_handler
    rw [show (Hooks.mk wc (hk.exceptHist ++ [hk.excepthook])
      (sigRegisterAll ws (signals_from_names avail PTS) hk.sig)
      (hk.atexitRegs ++ [f])).exceptHist = hk.exceptHist ++ [hk.excepthook]
      from rfl]
    rw [List.getLast?_concat, List.dropLast_concat]
  have Esig : restore_signals_handlers avail PTS
      ⟨hk.excepthook, hk.exceptHist,
       sigRegisterAll ws (signals_from_names avail PTS) hk.sig,
       hk.atexitRegs ++ [f]⟩ =
      some ⟨hk.excepthook, hk.exceptHist, hk.sig, hk.atexitRegs ++ [f]⟩ := by
    unfold restore_signals_handlers
    rw [show (Hooks.mk hk.excepthook hk.exceptHist
      (sigRegisterAll ws (signals_from_names avail PTS) hk.sig)
      (hk.atexitRegs ++ [f])).sig =
      sigRegisterAll ws (signals_from_names avail PTS) hk.sig from rfl]
    rw [sigRoundTrip ws (signals_from_names avail PTS) h3 hk.sig]
  have Eun : atexitUnregister f
      ⟨hk.excepthook, hk.exceptHist, hk.sig, hk.atexitRegs ++ [f]⟩ =
      ⟨hk.excepthook, hk.exceptHist, hk.sig, hk.atexitRegs⟩ := by
    unfold atexitUnregister
    congr 1
    rw [show (Hooks.mk hk.excepthook hk.exceptHist hk.sig
      (hk.atexitRegs ++ [f])).atexitRegs = hk.atexitRegs ++ [f] from rfl]
    rw [List.filter_append]
    have hl : hk.atexitRegs.filter (fun g => decide (g ≠ f)) =
        hk.atexitRegs := by
      rw [List.filter_eq_self]
      intro a ha
      exact decide_eq_true (fun e => h2 (e ▸ ha))
    have hr : [f].filter (fun g => decide (g ≠ f)) = [] := by simp
    rw [hl, hr, List.append_nil]
  refine ⟨⟨regs0, [], false⟩, ?_, rfl, rfl⟩
  show PubSub.stop avail f ⟨regs0, [], true⟩ _ = _
  unfold PubSub.stop
  rw [if_pos rfl]
  simp only [Eexc, Esig, Eun]

/-- A Unix-like platform for the C4 witness: names 1, 2, 3 (SIGINT,
SIGQUIT, SIGTERM) resolve to signals 2, 3, 15; name 4 (SIGBREAK) is
absent. -/
def availC4 : List (Nat × Nat) := [(1, 2), (2, 3), (3, 15)]

/-- A concrete pre-start hook state for the C4 witness. -/
def hkC4 : Hooks := ⟨30, [31], ⟨fun _ => 0, fun _ => []⟩, [32]⟩

/-- A concrete unstarted dispatcher for the C4 witness. -/
def psC4 : PubSub := ⟨⟨true, true, [], [], [], [], [], []⟩, [], false⟩

theorem claim_C4_start_stop_witness :
    psC4.started = false ∧ (33 : Nat) ∉ hkC4.atexitRegs ∧
    (signals_from_names availC4 PTS).Nodup ∧
    ∃ ps2, PubSub.stop availC4 33 (PubSub.start availC4 40 41 33 psC4 hkC4).1
        (PubSub.start availC4 40 41 33 psC4 hkC4).2 = some (ps2, hkC4) ∧
      ps2.started = false ∧ ps2.regs = psC4.regs :=
  ⟨rfl, by decide, by decide,
   claim_C4_start_stop availC4 40 41 33 psC4 hkC4 rfl (by decide) (by decide)⟩

theorem firstDedup_cons (x : Nat) (xs : List Nat) :
    firstDedup (x :: xs) =
      x :: firstDedup (xs.filter (fun y => decide (y ≠ x))) := by
  rw [firstDedup]

theorem osFold_eq : ∀ (l acc : List Nat),
    List.foldl osAdd acc l =
      acc ++ firstDedup (l.filter (fun y => decide (y ∉ acc))) := by
  intro l
  induction l with
  | nil => intro acc; simp [firstDedup]
  | cons x l ih =>
    intro acc
    by_cases hx : x ∈ acc
    · have h1 : List.foldl osAdd acc (x :: l) = List.foldl osAdd acc l := by
        show List.foldl osAdd (osAdd acc x) l = _
        rw [osAdd, if_pos hx]
      have h2 : (x :: l).filter (fun y => decide (y ∉ acc)) =
          l.filter (fun y => decide (y ∉ acc)) := by
        rw [List.filter_cons]
        simp [hx]
      rw [h1, h2, ih]
    · have h1 : List.foldl osAdd acc (x :: l) =
          List.foldl osAdd (acc ++ [x]) l := by
        show List.foldl osAdd (osAdd acc x) l = _
        rw [osAdd, if_neg hx]
      have h2 : (x :: l).filter (fun y => decide (y ∉ acc)) =
          x :: l.filter (fun y => decide (y ∉ acc)) := by
        rw [List.filter_cons]
        simp [hx]
      rw [h1, ih, h2, firstDedup_cons]
      have h3 : (l.filter (fun y => decide (y ∉ acc))).filter
            (fun y => decide (y ≠ x)) =
          l.filter (fun y => decide (y ∉ acc ++ [x])) := by
        rw [List.filter_filter]
        refine List.filter_congr ?_
        intro a _
        by_cases h1a : a ∈ acc <;> by_cases h2a : a = x <;>
          simp [h1a, h2a, List.mem_append]
      rw [h3, List.append_assoc]
      rfl

/-- With a duplication-free registry, an empty called-set and handlers that
return normally, a `_call_handlers` pass invokes exactly the registry's
handlers in registry (insertion) order. -/
theorem ch_order (b : Behavior) (cat : Cat) (ctx : Ctx)
    (hall : ∀ x, actOut (b x ctx) ctx = Outcome.ok) :
    ∀ (hs called : List Nat), hs.Nodup → (∀ x ∈ hs, x ∉ called) →
      ids (callHandlers b cat hs ctx called).tr = hs := by
  intro hs
  induction hs with
  | nil => intro called _ _; simp [callHandlers, ids]
  | cons h rest ih =>
    intro called hnd hfr
    have hc : h ∉ called := hfr h (List.mem_cons_self h rest)
    rw [ch_cons_run hc (hall h)]
    show h :: ids (callHandlers b cat rest ctx (h :: called)).tr = h :: rest
    have hfr2 : ∀ x ∈ rest, x ∉ h :: called := by
      intro x hx hm
      rcases List.mem_cons.mp hm with hm | hm
      · exact (List.nodup_cons.mp hnd).1 (hm ▸ hx)
      · exact hfr x (List.mem_cons_of_mem _ hx) hm
    rw [ih (h :: called) (List.nodup_cons.mp hnd).2 hfr2]

/-- Claim C7: adding an already-present handler leaves the registry
unchanged (idempotent add); a registry built by a sequence of adds keeps
the first insertion of each handler in order; and dispatch invokes a
registry's handlers in exactly that insertion order. -/
theorem claim_C7_registry :
    (∀ (s : List Nat) (h : Nat), h ∈ s → osAdd s h = s) ∧
    (∀ l : List Nat, osOfList l = firstDedup l) ∧
    (∀ (b : Behavior) (cat : Cat) (ctx : Ctx) (hs : List Nat),
      hs.Nodup → (∀ x, b x ctx = HAction.ret) →
      ids (callHandlers b cat hs ctx []).tr = hs) := by
  refine ⟨?_, ?_, ?_⟩
  · intro s h hm
    rw [osAdd, if_pos hm]
  · intro l
    rw [osOfList, osFold_eq l []]
    have hf : l.filter (fun y => decide (y ∉ ([] : List Nat))) = l := by
      rw [List.filter_eq_self]
      intro a _
      simp
    rw [hf, List.nil_append]
  · intro b cat ctx hs hnd hret
    refine ch_order b cat ctx ?_ hs [] hnd (by simp)
    intro x
    rw [hret x]
    rfl

/-- Concrete behaviour for the C7 witness: every handler returns
normally. -/
def bC7 : Behavior := fun _ _ => HAction.ret

theorem claim_C7_registry_witness :
    (3 : Nat) ∈ [1, 3] ∧ osAdd [1, 3] 3 = [1, 3] ∧
    osOfList [1, 2, 1, 3, 2] = firstDedup [1, 2, 1, 3, 2] ∧
    ([5, 6] : List Nat).Nodup ∧
    ids (callHandlers bC7 Cat.finish [5, 6] Ctx.empty []).tr = [5, 6] :=
  ⟨by decide, claim_C7_registry.1 [1, 3] 3 (by decide),
   claim_C7_registry.2.1 [1, 2, 1, 3, 2],
   by decide,
   claim_C7_registry.2.2 bC7 Cat.finish Ctx.empty [5, 6] (by decide)
     (fun _ => rfl)⟩

/-- Claim C9: every pass through the Scoped-Exit Guard invokes `on_enter`
exactly once, on scope entry before the guarded block runs, and the
`on_exit` cleanup runs exactly once, on scope exit, regardless of whether
the block finished normally, with a voluntary exit, with the forced-exit
sentinel, or with any other exception. -/
theorem claim_C9_guard (raiseAgain : Bool) (body : BlockOut) :
    ∃ mid, (runGuard raiseAgain body).1 =
        GEv.enter :: GEv.runBody :: mid ++ [GEv.exitCb] ∧
      (runGuard raiseAgain body).1.count GEv.enter = 1 ∧
      (runGuard raiseAgain body).1.count GEv.exitCb = 1 := by
  cases body with
  | normal => exact ⟨[], rfl, rfl, rfl⟩
  | sysExit c => exact ⟨[GEv.sysExitCb c], rfl, rfl, rfl⟩
  | sentinel c => exact ⟨[], rfl, rfl, rfl⟩
  | err e => exact ⟨[], rfl, rfl, rfl⟩

theorem sfn_append (avail : List (Nat × Nat)) :
    ∀ xs ys, signals_from_names avail (xs ++ ys) =
      signals_from_names avail xs ++ signals_from_names avail ys := by
  intro xs
  induction xs with
  | nil => intro ys; rfl
  | cons x xs ih =>
    intro ys
    cases x with
    | inl s =>
      show s :: signals_from_names avail (xs ++ ys) = _
      rw [ih]
      rfl
    | inr n =>
      cases hl : avail.lookup n with
      | none => simp [signals_from_names, hl, ih]
      | some v =>
        by_cases hv : v = 0 <;> simp [signals_from_names, hl, hv, ih]

/-- Claim C10: `signals_from_names` yields signal enum members unchanged
and unconditionally (no platform filtering of enum inputs), in input order;
only strings are looked up by name, and a name absent on the platform is
silently dropped rather than raising. -/
theorem claim_C10_signals_from_names :
    (∀ (avail : List (Nat × Nat)) (l : List Nat),
      signals_from_names avail (l.map Sum.inl) = l) ∧
    (∀ (avail : List (Nat × Nat)) (s : Nat) (rest : List (Sum Nat Nat)),
      signals_from_names avail (Sum.inl s :: rest) =
        s :: signals_from_names avail rest) ∧
    (∀ (avail : List (Nat × Nat)) (xs ys : List (Sum Nat Nat)) (n : Nat),
      avail.lookup n = none →
      signals_from_names avail (xs ++ Sum.inr n :: ys) =
        signals_from_names avail xs ++ signals_from_names avail ys) := by
  refine ⟨?_, ?_, ?_⟩
  · intro avail l
    induction l with
    | nil => rfl
    | cons s l ih =>
      show s :: signals_from_names avail (l.map Sum.inl) = s :: l
      rw [ih]
  · intro avail s rest
    rfl
  · intro avail xs ys n hl
    rw [sfn_append]
    congr 1
    simp [signals_from_names, hl]

theorem claim_C10_signals_from_names_witness :
    List.lookup 9 [(3, 5)] = (none : Option Nat) ∧
    signals_from_names [(3, 5)] ([7, 2].map Sum.inl) = [7, 2] ∧
    signals_from_names [(3, 5)] ([Sum.inl 7] ++ Sum.inr 9 :: [Sum.inl 2]) =
      signals_from_names [(3, 5)] [Sum.inl 7] ++
        signals_from_names [(3, 5)] [Sum.inl 2] :=
  ⟨by decide, claim_C10_signals_from_names.1 [(3, 5)] [7, 2],
   claim_C10_signals_from_names.2.2 [(3, 5)] [Sum.inl 7] [Sum.inl 2] 9
     (by decide)⟩
